import Mathlib

/-!
Verification development for the query-optimization repository
(cpp_src/schema.h, test_bench/parser.h, test_bench/planner.h,
test_bench/executor.h, join_ordering/join_order.cpp, poc/learned_index.cpp).

Shallow embedding conventions:
* C++ `double` arithmetic is modelled by exact rationals (`Rat`); `double`
  division by zero (which yields NaN/inf in C++) is modelled by `Rat`
  division by zero, which is 0.  Each theorem that could be sensitive to
  this is stated so that both readings agree.
* C++ `int` / `size_t` are modelled by `Int` / `Nat`; the programs under
  verification never exercise 32-bit overflow at the inputs of the claims.
* C++ exceptions (`std::runtime_error`, `std::out_of_range`) are modelled
  by `Except Err`.
* Mutation is modelled by explicit state passing; a function that throws
  after partially mutating its receiver returns the partially updated
  state together with the error (see `Table.addRowState`).
* `std::unordered_map` is modelled by an association list keyed in
  insertion order; `operator[]` inserts a default value when the key is
  absent, which is modelled faithfully.  Iteration order of
  `std::unordered_map` is unspecified in C++; the embedding iterates in
  insertion order.  No theorem below depends on a particular iteration
  order except through definitions that are themselves deterministic.
-/

namespace QO

/-- Error kinds thrown by the C++ sources (each `throw std::runtime_error(...)`
site is mapped to one of these constructors). -/
inductive Err where
  | tableNotFound
  | columnNotFound
  | rowArityMismatch
  | typeMismatch
  | predicateUnsupported
  | histogramMissing
  | keyNotFound
  | acyclicRequired
  | internal
  deriving Repr, DecidableEq

/-- FieldType from cpp_src/schema.h. -/
inductive FieldType where
  | integer
  | string
  deriving Repr, DecidableEq

/-- Field from cpp_src/schema.h: a tagged variant of int and string. -/
inductive Field where
  | int (v : Int)
  | str (s : String)
  deriving Repr, DecidableEq

/-- Tag of a field (Field::getType). -/
def Field.type : Field → FieldType
  | .int _ => .integer
  | .str _ => .string

/-- Field::getIntValue: throws when the field is not an integer. -/
def Field.getIntValue : Field → Except Err Int
  | .int v => .ok v
  | .str _ => .error .typeMismatch

/-- Field::getStringValue: throws when the field is not a string. -/
def Field.getStringValue : Field → Except Err String
  | .str s => .ok s
  | .int _ => .error .typeMismatch

/-- Predicate::Op from cpp_src/schema.h. -/
inductive Op where
  | equals
  | greaterThan
  | lessThan
  | lessThanOrEq
  | greaterThanOrEq
  | notEquals
  deriving Repr, DecidableEq

/-- Comparison of two same-tag fields under an operator.  Mirrors the six
Field comparison operators of cpp_src/schema.h, each of which throws on a
cross-tag comparison. -/
def Field.cmp (op : Op) : Field → Field → Except Err Bool
  | .int a, .int b =>
    .ok (match op with
      | .equals => a == b
      | .greaterThan => a > b
      | .lessThan => a < b
      | .lessThanOrEq => a ≤ b
      | .greaterThanOrEq => a ≥ b
      | .notEquals => a != b)
  | .str a, .str b =>
    .ok (match op with
      | .equals => a == b
      | .greaterThan => b < a
      | .lessThan => a < b
      | .lessThanOrEq => a < b || a == b
      | .greaterThanOrEq => b < a || a == b
      | .notEquals => a != b)
  | _, _ => .error .typeMismatch

/-- IntHistogram from cpp_src/schema.h.  `buckets` holds the per-bucket
counters, `totalValues` the number of added values. -/
structure IntHistogram where
  buckets : List Nat
  minVal : Int
  maxVal : Int
  bucketSize : Int
  totalValues : Nat
  deriving Repr, DecidableEq

/-- IntHistogram constructor: `bucketSize = std::max(1, (max - min + 1) / numBuckets)`
with C++ (truncating) integer division. -/
def IntHistogram.init (numBuckets : Nat) (min max : Int) : IntHistogram :=
  { buckets := List.replicate numBuckets 0
    minVal := min
    maxVal := max
    bucketSize := Max.max 1 ((max - min + 1).tdiv numBuckets)
    totalValues := 0 }

/-- IntHistogram::addValue. -/
def IntHistogram.addValue (h : IntHistogram) (value : Int) : IntHistogram :=
  if value ≥ h.minVal ∧ value ≤ h.maxVal then
    let bucketIndex : Int := (value - h.minVal).tdiv h.bucketSize
    let bucketIndex : Int := Min.min bucketIndex ((h.buckets.length : Int) - 1)
    { h with
      buckets := h.buckets.set bucketIndex.toNat ((h.buckets.getD bucketIndex.toNat 0) + 1)
      totalValues := h.totalValues + 1 }
  else h

/-- Add a list of values in order. -/
def IntHistogram.addValues (h : IntHistogram) (vs : List Int) : IntHistogram :=
  vs.foldl IntHistogram.addValue h

/-- Bucket selection shared by the three supported operators of
IntHistogram::estimateSelectivity: clamp the probe value to
[minVal, maxVal], divide by the bucket width (C++ truncating division)
and clamp the index to the last bucket. -/
def IntHistogram.selBucket (h : IntHistogram) (value : Int) : Nat :=
  let value := Min.min h.maxVal (Max.max h.minVal value)
  let bucketIndex : Int := (value - h.minVal).tdiv h.bucketSize
  (Min.min bucketIndex ((h.buckets.length : Int) - 1)).toNat

/-- IntHistogram::estimateSelectivity.  The C++ divides int counters by a
double total; division by a zero total (empty histogram) yields NaN in C++
and 0 in this rational model — both fail the containment and sum bounds of
claim C6 in the same way. -/
def IntHistogram.estimateSelectivity (h : IntHistogram) (op : Op) (value : Int) :
    Except Err ℚ :=
  let b : Nat := h.selBucket value
  match op with
  | .equals => .ok ((h.buckets.getD b 0 : ℚ) / (h.totalValues : ℚ))
  | .greaterThan => .ok (((h.buckets.drop b).sum : ℚ) / (h.totalValues : ℚ))
  | .lessThan => .ok (((h.buckets.take (b + 1)).sum : ℚ) / (h.totalValues : ℚ))
  | _ => .error .predicateUnsupported

/-- StringHistogram::stringToInt: packs the first four bytes big-endian and
clamps every string other than "" and "zzzz" to the  bounds.  C++ `char` is
signed on the reference platform; a code unit of 128 or more therefore
contributes a negative summand. -/
def stringToIntRaw (s : String) : Int :=
  (List.range 4).foldl
    (fun v i =>
      match s.data.get? i with
      | some c =>
        let cv : Int := if c.toNat < 128 then (c.toNat : Int) else (c.toNat : Int) - 256
        v + cv * ((2 : Int) ^ ((3 - i) * 8))
      | none => v)
    0

/-- StringHistogram lower bound: encode(""). -/
def strHistMin : Int := stringToIntRaw ""

/-- StringHistogram upper bound: encode("zzzz"). -/
def strHistMax : Int := stringToIntRaw "zzzz"

/-- StringHistogram::stringToInt with the clamp applied. -/
def stringToInt (s : String) : Int :=
  let v := stringToIntRaw s
  if s = "" ∨ s = "zzzz" then v
  else Min.min strHistMax (Max.max strHistMin v)

/-- StringHistogram from cpp_src/schema.h: wraps an IntHistogram over the
string encoding. -/
structure StringHistogram where
  hist : IntHistogram
  deriving Repr, DecidableEq

/-- StringHistogram constructor. -/
def StringHistogram.init (buckets : Nat) : StringHistogram :=
  ⟨IntHistogram.init buckets strHistMin strHistMax⟩

/-- StringHistogram::addValue. -/
def StringHistogram.addValue (h : StringHistogram) (s : String) : StringHistogram :=
  ⟨h.hist.addValue (stringToInt s)⟩

/-- StringHistogram::estimateSelectivity. -/
def StringHistogram.estimateSelectivity (h : StringHistogram) (op : Op) (s : String) :
    Except Err ℚ :=
  h.hist.estimateSelectivity op (stringToInt s)

/-- Column from cpp_src/schema.h.  The constructor installs an integer
histogram with 2000 buckets over [0, 1000000] for integer columns and a
string histogram with 200 buckets for string columns.  (The same record
shape is used for the test_bench duplicate of schema.h, which is not
present under src/; per spec section 2 the two are duplicates, with the
`tableName` member called `baseTableName` on the test_bench side.) -/
structure Column where
  name : String
  tableName : String
  type : FieldType
  intHistogram : Option IntHistogram
  stringHistogram : Option StringHistogram
  deriving Repr, DecidableEq

/-- Column constructor. -/
def Column.mkNew (name tableName : String) (type : FieldType) : Column :=
  { name := name
    tableName := tableName
    type := type
    intHistogram := if type = .integer then some (IntHistogram.init 2000 0 1000000) else none
    stringHistogram := if type = .string then some (StringHistogram.init 200) else none }

/-- Table from cpp_src/schema.h. -/
structure Table where
  name : String
  columns : List Column
  data : List (List Field)
  deriving Repr, DecidableEq

/-- Table::addColumn. -/
def Table.addColumn (t : Table) (name tableName : String) (type : FieldType) : Table :=
  { t with columns := t.columns ++ [Column.mkNew name tableName type] }

/-- One step of Table::addRow's per-column loop: checks the field tag
against the column tag and on success updates that column's histogram,
then continues with the remaining columns.  On failure the already
processed (updated) columns are kept and the remaining ones are returned
unchanged, exactly as the C++ loop leaves the object when it throws. -/
def addRowGo : List Column → List Field → List Column × Option Err
  | [], [] => ([], none)
  | c :: cs, f :: fs =>
    if f.type ≠ c.type then (c :: cs, some .typeMismatch)
    else
      match c.type, f with
      | .integer, .int v =>
        match c.intHistogram with
        | none => (c :: cs, some .histogramMissing)
        | some h =>
          let c2 := { c with intHistogram := some (h.addValue v) }
          let r := addRowGo cs fs
          (c2 :: r.1, r.2)
      | .string, .str s =>
        match c.stringHistogram with
        | none => (c :: cs, some .histogramMissing)
        | some h =>
          let c2 := { c with stringHistogram := some (h.addValue s) }
          let r := addRowGo cs fs
          (c2 :: r.1, r.2)
      | _, _ => (c :: cs, some .typeMismatch)
  | cs, _ => (cs, some .internal)

/-- Table::addRow, modelled as a state transformer: returns the table as it
is left after the call together with the error, if any.  The C++ validates
the row length up front, then interleaves the per-column tag check with the
histogram update, and pushes the row only after the loop finishes. -/
def Table.addRowState (t : Table) (row : List Field) : Table × Option Err :=
  if row.length ≠ t.columns.length then (t, some .rowArityMismatch)
  else
    let r := addRowGo t.columns row
    match r.2 with
    | some e => ({ t with columns := r.1 }, some e)
    | none => ({ t with columns := r.1, data := t.data ++ [row] }, none)

/-- Table::getColumnIndex: first column matching both the column name and
the owning-table name; the C++ throws (cpp_src) or returns -1 (test_bench,
immediately turned into a throw by the executor) when absent, modelled as
`none`. -/
def Table.getColumnIndex? (t : Table) (columnName tableName : String) : Option Nat :=
  t.columns.findIdx? (fun c => c.name == columnName && c.tableName == tableName)

/-- Table::estimateSelectivity: finds the first column with the given name
(ignoring the owning-table name) and dispatches to its histogram. -/
def Table.estimateSelectivity (t : Table) (columnName : String) (op : Op) (value : Field) :
    Except Err ℚ :=
  match t.columns.find? (fun c => c.name == columnName) with
  | none => .error .columnNotFound
  | some col =>
    match col.type with
    | .integer => do
      let v ← value.getIntValue
      match col.intHistogram with
      | some h => h.estimateSelectivity op v
      | none => .error .histogramMissing
    | .string => do
      let s ← value.getStringValue
      match col.stringHistogram with
      | some h => h.estimateSelectivity op s
      | none => .error .histogramMissing

/-- C++ INT_MAX, the initial minimum in recomputeHistogramsForIntegerColumn. -/
def cIntMax : Int := 2147483647

/-- C++ INT_MIN, the initial maximum in recomputeHistogramsForIntegerColumn. -/
def cIntMin : Int := -2147483648

/-- The per-column body of Table::recomputeHistogramsForIntegerColumn:
for an integer column find min and max over the stored rows, rebuild a
2000-bucket histogram with those bounds and re-add every value.  Reading
a non-integer cell of an integer column throws (Field::getIntValue). -/
def recomputeColumn (data : List (List Field)) (ci : Nat × Column) : Except Err Column :=
  match ci.2.type with
  | .integer => do
    let vals ← data.mapM (fun row => (row.getD ci.1 (Field.int 0)).getIntValue)
    let mn := vals.foldl Min.min cIntMax
    let mx := vals.foldl Max.max cIntMin
    pure { ci.2 with intHistogram := some ((IntHistogram.init 2000 mn mx).addValues vals) }
  | .string => pure ci.2

/-- Table::recomputeHistogramsForIntegerColumn over all columns. -/
def Table.recomputeHistograms (t : Table) : Except Err Table := do
  let cols ← (t.columns.enum).mapM (recomputeColumn t.data)
  pure { t with columns := cols }

/-- Schema from cpp_src/schema.h: a map from table name to table,
modelled as an association list. -/
def Schema := List (String × Table)

/-- Schema::getTable: throws TableNotFound when absent. -/
def getTable (sch : Schema) (name : String) : Except Err Table :=
  match sch.find? (fun p => p.1 == name) with
  | some p => .ok p.2
  | none => .error .tableNotFound

end QO

namespace QO

/-- Decidable equality for Except values, used to settle concrete
evaluations of the embedded functions. -/
instance {ε α : Type} [DecidableEq ε] [DecidableEq α] : DecidableEq (Except ε α) := fun a b =>
  match a, b with
  | .ok x, .ok y => decidable_of_iff (x = y) ⟨congrArg Except.ok, Except.ok.inj⟩
  | .error x, .error y => decidable_of_iff (x = y) ⟨congrArg Except.error, Except.error.inj⟩
  | .ok _, .error _ => isFalse fun h => Except.noConfusion h
  | .error _, .ok _ => isFalse fun h => Except.noConfusion h

/-! ## Claim C4: histogram bucket width -/

/-- Claim C4 counterexample: for bucket count 2 and bounds [0, 2] the code
produces width `max 1 ((2 - 0 + 1) / 2) = 1` with truncating division,
whereas the claimed formula `max(1, ceil((hi - lo + 1) / B))` gives 2. -/
theorem c4_counterexample :
    (IntHistogram.init 2 0 2).bucketSize = 1 ∧
    Max.max (1 : ℤ) ⌈((2 : ℚ) - 0 + 1) / 2⌉ = 2 := by
  have hc : ⌈((2 : ℚ) - 0 + 1) / 2⌉ = 2 := by
    have h32 : ((2 : ℚ) - 0 + 1) / 2 = 3 / 2 := by norm_num
    rw [h32, Int.ceil_eq_iff] <;> norm_num
  refine ⟨rfl, by rw [hc]; decide⟩

/-- Claim C4 (amended): for bucket count B > 0 and bounds lo ≤ hi, the
constructor's bucket width equals `max 1 ⌊(hi - lo + 1) / B⌋` — floor
(truncating) division of the value range by the bucket count, with a
minimum of 1 — not ceiling division. -/
theorem c4_amended (B : ℕ) (lo hi : ℤ) (hB : 0 < B) (hlh : lo ≤ hi) :
    (IntHistogram.init B lo hi).bucketSize = Max.max 1 ⌊((hi : ℚ) - lo + 1) / B⌋ := by
  have hnum : (0 : ℤ) ≤ hi - lo + 1 := by omega
  have h1 : ((hi : ℚ) - lo + 1) = ((hi - lo + 1 : ℤ) : ℚ) := by push_cast; ring
  rw [IntHistogram.init]
  simp only [h1]
  rw [Rat.floor_intCast_div_natCast]
  rw [Int.tdiv_eq_ediv hnum (by exact_mod_cast Nat.zero_le B)]

/-- Witness for `c4_amended` at the constructor arguments used by the
Column constructor (2000 buckets over [0, 1000000]): width 500. -/
theorem c4_amended_witness :
    ((0 : ℕ) < 2000 ∧ (0 : ℤ) ≤ 1000000) ∧
    (IntHistogram.init 2000 0 1000000).bucketSize =
      Max.max 1 ⌊((1000000 : ℚ) - 0 + 1) / 2000⌋ :=
  ⟨⟨by norm_num, by norm_num⟩, c4_amended 2000 0 1000000 (by norm_num) (by norm_num)⟩

/-! ## Claim C6: selectivity bounds -/

/-- Structural well-formedness of an integer histogram, as established by
`IntHistogram.init` and preserved by `addValue`. -/
def IntHistogram.WF (h : IntHistogram) : Prop :=
  0 < h.buckets.length ∧ h.totalValues = h.buckets.sum ∧
    1 ≤ h.bucketSize ∧ h.minVal ≤ h.maxVal

/-- Claim C6 counterexample: on a freshly constructed (empty) histogram
all three selectivities are 0 (C++: NaN, since the counters are divided
by a zero total), so their sum is not ≥ 1 as the claim requires for
every histogram. -/
theorem c6_counterexample :
    (IntHistogram.init 2 0 2).estimateSelectivity .lessThan 1 = .ok 0 ∧
    (IntHistogram.init 2 0 2).estimateSelectivity .equals 1 = .ok 0 ∧
    (IntHistogram.init 2 0 2).estimateSelectivity .greaterThan 1 = .ok 0 ∧
    ¬ ((1 : ℚ) ≤ 0 + 0 + 0) := by
  have hb : (IntHistogram.init 2 0 2).selBucket 1 = 1 := by decide
  have ht : (IntHistogram.init 2 0 2).totalValues = 0 := by decide
  refine ⟨?_, ?_, ?_, by norm_num⟩ <;>
    norm_num [IntHistogram.estimateSelectivity, hb, ht, IntHistogram.init]

/-- The selected bucket is always a valid index once the histogram has at
least one bucket and ordered bounds. -/
theorem selBucket_lt (h : IntHistogram) (v : Int) (hlen : 0 < h.buckets.length)
    (hbs : 1 ≤ h.bucketSize) (hmm : h.minVal ≤ h.maxVal) :
    h.selBucket v < h.buckets.length := by
  rw [IntHistogram.selBucket]
  have hclamp : h.minVal ≤ Min.min h.maxVal (Max.max h.minVal v) :=
    le_min hmm (le_max_left _ _)
  have hidx0nn : (0 : Int) ≤ (Min.min h.maxVal (Max.max h.minVal v) - h.minVal).tdiv h.bucketSize :=
    Int.tdiv_nonneg (by omega) (by omega)
  have h2 : Min.min ((Min.min h.maxVal (Max.max h.minVal v) - h.minVal).tdiv h.bucketSize)
      ((h.buckets.length : Int) - 1) ≤ (h.buckets.length : Int) - 1 := min_le_right _ _
  have h3 : (0 : Int) ≤ Min.min ((Min.min h.maxVal (Max.max h.minVal v) - h.minVal).tdiv h.bucketSize)
      ((h.buckets.length : Int) - 1) := le_min hidx0nn (by omega)
  omega

/-- Arithmetic core of claim C6: bounds for the three counter ratios. -/
theorem ratio_facts (nLt nEq nGt s : Nat) (hpos : 0 < s)
    (hLt : nLt ≤ s) (hEq : nEq ≤ s) (hGt : nGt ≤ s) (hkey : s ≤ nLt + nGt) :
    0 ≤ (nLt : ℚ) / s ∧ (nLt : ℚ) / s ≤ 1 ∧
    0 ≤ (nEq : ℚ) / s ∧ (nEq : ℚ) / s ≤ 1 ∧
    0 ≤ (nGt : ℚ) / s ∧ (nGt : ℚ) / s ≤ 1 ∧
    1 ≤ (nLt : ℚ) / s + (nEq : ℚ) / s + (nGt : ℚ) / s := by
  have hs : (0 : ℚ) < (s : ℚ) := by exact_mod_cast hpos
  have hle1 : ∀ n : Nat, n ≤ s → (n : ℚ) / s ≤ 1 := by
    intro n hn
    rw [div_le_one hs]
    exact_mod_cast hn
  have hge0 : ∀ n : Nat, 0 ≤ (n : ℚ) / s :=
    fun n => div_nonneg (by positivity) (le_of_lt hs)
  refine ⟨hge0 _, hle1 _ hLt, hge0 _, hle1 _ hEq, hge0 _, hle1 _ hGt, ?_⟩
  have h1 : (1 : ℚ) ≤ (nLt : ℚ) / s + (nGt : ℚ) / s := by
    rw [div_add_div_same, le_div_iff hs, one_mul]
    exact_mod_cast hkey
  have h2 : 0 ≤ (nEq : ℚ) / s := hge0 _
  linarith

/-- Claim C6 (amended): for every structurally well-formed histogram with
at least one recorded value and every probe value v, the selectivities
returned for LESS_THAN, EQUALS and GREATER_THAN all lie in [0, 1] and
their sum is at least 1 (the bucket containing v is counted in both the
< and the > sum).  The positive-total hypothesis is forced by
the empty-histogram counterexample; a histogram with zero buckets would index
`buckets[-1]` in C++ and is excluded by well-formedness. -/
theorem c6_amended (h : IntHistogram) (hwf : h.WF) (hpos : 0 < h.totalValues) (v : Int) :
    ∃ sLt sEq sGt : ℚ,
      h.estimateSelectivity .lessThan v = .ok sLt ∧
      h.estimateSelectivity .equals v = .ok sEq ∧
      h.estimateSelectivity .greaterThan v = .ok sGt ∧
      0 ≤ sLt ∧ sLt ≤ 1 ∧ 0 ≤ sEq ∧ sEq ≤ 1 ∧ 0 ≤ sGt ∧ sGt ≤ 1 ∧
      1 ≤ sLt + sEq + sGt := by
  obtain ⟨hlen, hsum, hbs, hmm⟩ := hwf
  have hblt : h.selBucket v < h.buckets.length := selBucket_lt h v hlen hbs hmm
  refine ⟨_, _, _, rfl, rfl, rfl, ?_⟩
  generalize hbdef : h.selBucket v = b at hblt ⊢
  have htd : (h.buckets.take b).sum + (h.buckets.drop b).sum = h.buckets.sum :=
    List.sum_take_add_sum_drop _ _
  have htd1 : (h.buckets.take (b + 1)).sum + (h.buckets.drop (b + 1)).sum = h.buckets.sum :=
    List.sum_take_add_sum_drop _ _
  have hgetd : h.buckets.getD b 0 = h.buckets[b] := by
    rw [List.getD_eq_getElem?_getD, List.getElem?_eq_getElem hblt]
    rfl
  have htake1 : (h.buckets.take (b + 1)).sum = (h.buckets.take b).sum + h.buckets[b] := by
    simpa using List.sum_take_succ _ _ hblt
  have hdropc : h.buckets.drop b = h.buckets[b] :: h.buckets.drop (b + 1) :=
    List.drop_eq_getElem_cons hblt
  have hdrop : (h.buckets.drop b).sum = h.buckets[b] + (h.buckets.drop (b + 1)).sum := by
    rw [hdropc, List.sum_cons]
  have hfacts := ratio_facts ((h.buckets.take (b + 1)).sum) (h.buckets.getD b 0)
    ((h.buckets.drop b).sum) h.totalValues hpos
    (by omega) (by omega) (by omega) (by omega)
  exact ⟨hfacts.1, hfacts.2.1, hfacts.2.2.1, hfacts.2.2.2.1, hfacts.2.2.2.2.1,
    hfacts.2.2.2.2.2.1, hfacts.2.2.2.2.2.2⟩

/-- Witness for `c6_amended`: the histogram over [0, 2] with 2 buckets and
one recorded value satisfies the hypotheses. -/
theorem c6_amended_witness :
    (((IntHistogram.init 2 0 2).addValue 1).WF ∧
      0 < ((IntHistogram.init 2 0 2).addValue 1).totalValues) ∧
    (∃ sLt sEq sGt : ℚ,
      ((IntHistogram.init 2 0 2).addValue 1).estimateSelectivity .lessThan 1 = .ok sLt ∧
      ((IntHistogram.init 2 0 2).addValue 1).estimateSelectivity .equals 1 = .ok sEq ∧
      ((IntHistogram.init 2 0 2).addValue 1).estimateSelectivity .greaterThan 1 = .ok sGt ∧
      0 ≤ sLt ∧ sLt ≤ 1 ∧ 0 ≤ sEq ∧ sEq ≤ 1 ∧ 0 ≤ sGt ∧ sGt ≤ 1 ∧
      1 ≤ sLt + sEq + sGt) :=
  ⟨⟨by unfold IntHistogram.WF; decide, by decide⟩,
    c6_amended _ (by unfold IntHistogram.WF; decide) (by decide) 1⟩

end QO

namespace QO

/-! ## Claim C5: addRow validation order -/

/-- Claim C5 (amended): `addRow` checks the row arity before touching any
state, so a RowArityMismatch failure leaves the table entirely unchanged;
every failure leaves the stored rows (and the name) unchanged; a type
mismatch at the first column also leaves the table entirely unchanged;
and a successful call appends exactly the given row.  (Per-column tag
validation is interleaved with the histogram updates, so a TypeMismatch
at a later column leaves the histograms of the earlier columns already
updated — see the counterexample.) -/
theorem c5_amended (t : Table) (row : List Field) :
    (row.length ≠ t.columns.length → t.addRowState row = (t, some .rowArityMismatch)) ∧
    (∀ e : Err, (t.addRowState row).2 = some e →
      (t.addRowState row).1.data = t.data ∧ (t.addRowState row).1.name = t.name) ∧
    (∀ c0 cs f0 fs, row.length = t.columns.length →
      t.columns = c0 :: cs → row = f0 :: fs → f0.type ≠ c0.type →
      t.addRowState row = (t, some .typeMismatch)) ∧
    ((t.addRowState row).2 = none → (t.addRowState row).1.data = t.data ++ [row]) := by
  refine ⟨?_, ?_, ?_, ?_⟩
  · intro h
    simp [Table.addRowState, h]
  · intro e he
    simp only [Table.addRowState] at he ⊢
    by_cases h : row.length ≠ t.columns.length
    · simp only [if_pos h] at he ⊢
      simp
    · simp only [if_neg h] at he ⊢
      rcases hgo : (addRowGo t.columns row).2 with _ | e2
      · simp [hgo] at he
      · simp only [hgo] at he ⊢
        simp
  · intro c0 cs f0 fs hlen hcols hrow hty
    have hne : ¬ row.length ≠ t.columns.length := by omega
    simp only [Table.addRowState, if_neg hne]
    rw [hcols, hrow]
    simp only [addRowGo, if_pos hty]
    rw [← hcols]
  · intro h
    simp only [Table.addRowState] at h ⊢
    by_cases hl : row.length ≠ t.columns.length
    · simp [hl] at h
    · simp only [if_neg hl] at h ⊢
      rcases hgo : (addRowGo t.columns row).2 with _ | e2
      · simp [hgo]
      · simp [hgo] at h

/-- Concrete two-integer-column table used by the C5 counterexample. -/
def c5Table : Table :=
  ((Table.mk "t" [] []).addColumn "a" "t" .integer).addColumn "b" "t" .integer

/-- Claim C5 counterexample: adding the row (5, "x") to a table with two
integer columns fails with TypeMismatch at the second column, stores no
row — but the first column's histogram has already been updated (its
total becomes 1 while the row count stays 0), so the table is not
unchanged and the histogram-total-equals-row-count invariant is broken
by the failing call. -/
theorem c5_counterexample :
    (c5Table.addRowState [Field.int 5, Field.str "x"]).2 = some .typeMismatch ∧
    (c5Table.addRowState [Field.int 5, Field.str "x"]).1.data = [] ∧
    ((c5Table.addRowState [Field.int 5, Field.str "x"]).1.columns.map
      (fun c => c.intHistogram.map (fun h => h.totalValues))) = [some 1, some 0] ∧
    (c5Table.columns.map (fun c => c.intHistogram.map (fun h => h.totalValues)))
      = [some 0, some 0] := by
  refine ⟨by decide, by decide, by decide, by decide⟩

end QO


namespace QO

/-! ## Learned index (poc/learned_index.cpp) -/

/-- The four sums computed by LinearRegression::fit over X = indices and
y = data values.  The C++ accumulates them as doubles; every summand here
is an integer that doubles represent exactly at the magnitudes involved,
so integer sums model them faithfully. -/
structure FitSums where
  sumX : Int
  sumY : Int
  sumXY : Int
  sumX2 : Int
  deriving Repr, DecidableEq

/-- Compute the regression sums for a data array (X[i] = i, y[i] = data[i]). -/
def fitSums (data : List Int) : FitSums :=
  { sumX := ((List.range data.length).map (fun i => (i : Int))).sum
    sumY := data.sum
    sumXY := ((data.enum).map (fun p => (p.1 : Int) * p.2)).sum
    sumX2 := ((List.range data.length).map (fun i => (i : Int) * i)).sum }

/-- LinearRegression::fit: ordinary least squares slope and intercept.
A division by zero (n ≤ 1 or constant X) yields NaN in C++ and 0 here;
no theorem below depends on the fitted values themselves. -/
def fitLR (data : List Int) : ℚ × ℚ :=
  let s := fitSums data
  let n : ℚ := (data.length : ℚ)
  let slope : ℚ := (n * (s.sumXY : ℚ) - (s.sumX : ℚ) * (s.sumY : ℚ)) /
    (n * (s.sumX2 : ℚ) - (s.sumX : ℚ) * (s.sumX : ℚ))
  (slope, ((s.sumY : ℚ) - slope * (s.sumX : ℚ)) / n)

/-- std::round: round half away from zero. -/
def roundHalfAway (q : ℚ) : Int :=
  if q < 0 then -(⌊-q + 1 / 2⌋) else ⌊q + 1 / 2⌋

/-- The clamped predicted position computed at the top of
LearnedIndex::search: round(slope·key + intercept) clamped to
[0, n − 1]. -/
def clampedPos (data : List Int) (key : Int) : Int :=
  let fi := fitLR data
  let predicted : ℚ := fi.1 * (key : ℚ) + fi.2
  Max.max 0 (Min.min (roundHalfAway predicted) ((data.length : Int) - 1))

/-- Observable state at the end of LearnedIndex::linear_search: final
position, operation count, every array index the code has read (in
order), and whether any read was out of bounds. -/
structure WalkSt where
  pos : Int
  ops : Nat
  reads : List Int
  oob : Bool
  deriving Repr, DecidableEq

/-- Bounds-instrumented array read.  A C++ out-of-bounds `data[pos]` read
yields an indeterminate value; it is modelled as 0, which is sound
because the remaining conjuncts of each loop condition make the control
flow independent of that value (see the walk lemmas); the Boolean
records that the out-of-bounds access happened. -/
def readAt (data : List Int) (pos : Int) : Int × Bool :=
  if 0 ≤ pos ∧ pos < (data.length : Int) then (data.getD pos.toNat 0, false) else (0, true)

/-- First while loop of linear_search:
`while (data[pos] > key && pos >= 0 && left_limit < limit)` with
`--pos` in the body; `fuel` is `limit - left_limit` (initially 10). -/
def leftWalk (data : List Int) (key : Int) : Nat → Int → Nat → List Int → Bool → WalkSt
  | fuel, pos, ops, reads, oob =>
    let rd := readAt data pos
    let reads1 := reads ++ [pos]
    let oob1 := oob || rd.2
    if rd.1 > key then
      if 0 ≤ pos then
        match fuel with
        | 0 => ⟨pos, ops, reads1, oob1⟩
        | f + 1 => leftWalk data key f (pos - 1) (ops + 1) reads1 oob1
      else ⟨pos, ops, reads1, oob1⟩
    else ⟨pos, ops, reads1, oob1⟩

/-- Second while loop of linear_search:
`while (data[pos] < key && pos < data.size() && right_limit < limit)`
with `++pos` in the body.  `pos < data.size()` compares an int against a
size_t, so a negative pos converts to a huge unsigned value and the test
is false: it is modelled as `0 ≤ pos ∧ pos < n`. -/
def rightWalk (data : List Int) (key : Int) : Nat → Int → Nat → List Int → Bool → WalkSt
  | fuel, pos, ops, reads, oob =>
    let rd := readAt data pos
    let reads1 := reads ++ [pos]
    let oob1 := oob || rd.2
    if rd.1 < key then
      if 0 ≤ pos ∧ pos < (data.length : Int) then
        match fuel with
        | 0 => ⟨pos, ops, reads1, oob1⟩
        | f + 1 => rightWalk data key f (pos + 1) (ops + 1) reads1 oob1
      else ⟨pos, ops, reads1, oob1⟩
    else ⟨pos, ops, reads1, oob1⟩

/-- LearnedIndex::linear_search with instrumentation; returns the final
walk state and the returned index.  The final
`if (pos < data.size() && pos >= 0 && data[pos] == key)` checks the
bounds before reading, so its read happens only in bounds. -/
def linearSearch (data : List Int) (key : Int) (pos : Int) : WalkSt × Int :=
  let rd0 := readAt data pos
  if rd0.1 == key then (⟨pos, 0, [pos], rd0.2⟩, pos)
  else
    let s1 := leftWalk data key 10 pos 0 [pos] rd0.2
    let s2 := rightWalk data key 10 s1.pos s1.ops s1.reads s1.oob
    if 0 ≤ s2.pos ∧ s2.pos < (data.length : Int) then
      if data.getD s2.pos.toNat 0 == key then
        ({ s2 with reads := s2.reads ++ [s2.pos] }, s2.pos)
      else ({ s2 with reads := s2.reads ++ [s2.pos] }, -1)
    else (s2, -1)

/-- LearnedIndex::binary_search; `fuel` bounds the iteration count and is
passed as the initial interval width so that exhaustion is unreachable. -/
def binarySearch (data : List Int) (key : Int) : Nat → Int → Int → Nat → Int × Nat
  | fuel, left, right, ops =>
    if left ≤ right then
      match fuel with
      | 0 => (-1, ops)
      | f + 1 =>
        let ops := ops + 1
        let mid := left + (right - left).tdiv 2
        let v := data.getD mid.toNat 0
        if v == key then (mid, ops)
        else if v < key then binarySearch data key f (mid + 1) right ops
        else binarySearch data key f left (mid - 1) ops
    else (-1, ops)

/-- Structural integer square root: the largest k ≤ n with k*k ≤ n,
modelling `(int)std::sqrt(n)` (the double sqrt truncated to int). -/
def intSqrt (n : Nat) : Nat :=
  (List.range (n + 1)).foldl (fun acc k => if k * k ≤ n then k else acc) 0

/-- LearnedIndex::search: returns the found index (or −1) together with
the final operations counter (the counter is reset to 0 on entry). -/
def searchLI (data : List Int) (key : Int) (ty : String) : Int × Nat :=
  let pos := clampedPos data key
  if ty == "linear" then
    let r := linearSearch data key pos
    (r.2, r.1.ops)
  else
    let sr : Int := Max.max 1 (intSqrt data.length : Int)
    let left := Max.max 0 (pos - sr)
    let right := Min.min ((data.length : Int) - 1) (pos + sr)
    binarySearch data key (right + 1 - left).toNat left right 0

end QO

namespace QO

/-- In-bounds reads are not flagged. -/
theorem readAt_inb (data : List Int) (pos : Int)
    (h : 0 ≤ pos ∧ pos < (data.length : Int)) :
    readAt data pos = (data.getD pos.toNat 0, false) := by
  simp [readAt, h]

/-- Out-of-bounds reads are flagged. -/
theorem readAt_oob (data : List Int) (pos : Int)
    (h : ¬ (0 ≤ pos ∧ pos < (data.length : Int))) :
    readAt data pos = (0, true) := by
  simp only [readAt, if_neg h]

/-- The left walk adds at most `fuel` operations. -/
theorem leftWalk_ops (data : List Int) (key : Int) :
    ∀ (fuel : Nat) (pos : Int) (ops : Nat) (reads : List Int) (oob : Bool),
      (leftWalk data key fuel pos ops reads oob).ops ≤ ops + fuel := by
  intro fuel
  induction fuel with
  | zero =>
    intro pos ops reads oob
    rw [leftWalk]
    split
    · split
      · simp
      · simp
    · simp
  | succ f ih =>
    intro pos ops reads oob
    rw [leftWalk]
    split
    · split
      · exact le_trans (ih _ _ _ _) (by omega)
      · simp
    · simp

/-- The right walk adds at most `fuel` operations. -/
theorem rightWalk_ops (data : List Int) (key : Int) :
    ∀ (fuel : Nat) (pos : Int) (ops : Nat) (reads : List Int) (oob : Bool),
      (rightWalk data key fuel pos ops reads oob).ops ≤ ops + fuel := by
  intro fuel
  induction fuel with
  | zero =>
    intro pos ops reads oob
    rw [rightWalk]
    split
    · split
      · simp
      · simp
    · simp
  | succ f ih =>
    intro pos ops reads oob
    rw [rightWalk]
    split
    · split
      · exact le_trans (ih _ _ _ _) (by omega)
      · simp
    · simp

/-- Behaviour of the left walk on positions in [-1, n-1]: the position
stays in [-1, n-1] and only decreases, every recorded read lies in
[-1, n-1], and a freshly raised out-of-bounds flag forces the exit
position -1 (the only out-of-bounds probe the walk can make). -/
theorem leftWalk_spec (data : List Int) (key : Int) :
    ∀ (fuel : Nat) (pos : Int) (ops : Nat) (reads : List Int) (oob : Bool),
      -1 ≤ pos → pos ≤ (data.length : Int) - 1 →
      (-1 ≤ (leftWalk data key fuel pos ops reads oob).pos ∧
        (leftWalk data key fuel pos ops reads oob).pos ≤ pos) ∧
      (∀ p ∈ (leftWalk data key fuel pos ops reads oob).reads,
        p ∈ reads ∨ (-1 ≤ p ∧ p ≤ (data.length : Int) - 1)) ∧
      ((leftWalk data key fuel pos ops reads oob).oob = true →
        oob = true ∨ (leftWalk data key fuel pos ops reads oob).pos = -1) := by
  intro fuel
  induction fuel with
  | zero =>
    intro pos ops reads oob h1 h2
    rw [leftWalk]
    by_cases hp : 0 ≤ pos
    · rw [readAt_inb data pos ⟨hp, by omega⟩]
      try dsimp only
      split
      · try rw [if_pos hp]
        try dsimp only
        refine ⟨⟨by omega, by omega⟩, ?_, ?_⟩
        · intro p hpm
          rcases List.mem_append.mp hpm with h | h
          · exact Or.inl h
          · simp only [List.mem_singleton] at h
            right; omega
        · intro hoob
          simp only [Bool.or_false] at hoob
          exact Or.inl hoob
      · try dsimp only
        refine ⟨⟨by omega, by omega⟩, ?_, ?_⟩
        · intro p hpm
          rcases List.mem_append.mp hpm with h | h
          · exact Or.inl h
          · simp only [List.mem_singleton] at h
            right; omega
        · intro hoob
          simp only [Bool.or_false] at hoob
          exact Or.inl hoob
    · have hpe : pos = -1 := by omega
      rw [readAt_oob data pos (by omega)]
      try dsimp only
      split
      · try rw [if_neg hp]
        try dsimp only
        refine ⟨⟨by omega, by omega⟩, ?_, fun _ => Or.inr hpe⟩
        intro p hpm
        rcases List.mem_append.mp hpm with h | h
        · exact Or.inl h
        · simp only [List.mem_singleton] at h
          right; omega
      · try dsimp only
        refine ⟨⟨by omega, by omega⟩, ?_, fun _ => Or.inr hpe⟩
        intro p hpm
        rcases List.mem_append.mp hpm with h | h
        · exact Or.inl h
        · simp only [List.mem_singleton] at h
          right; omega
  | succ f ih =>
    intro pos ops reads oob h1 h2
    rw [leftWalk]
    by_cases hp : 0 ≤ pos
    · rw [readAt_inb data pos ⟨hp, by omega⟩]
      try dsimp only
      split
      · try rw [if_pos hp]
        try dsimp only
        have hrec := ih (pos - 1) (ops + 1) (reads ++ [pos]) (oob || false)
          (by omega) (by omega)
        refine ⟨⟨hrec.1.1, by have := hrec.1.2; omega⟩, ?_, ?_⟩
        · intro p hpm
          rcases hrec.2.1 p hpm with h | h
          · rcases List.mem_append.mp h with h | h
            · exact Or.inl h
            · simp only [List.mem_singleton] at h
              right; omega
          · exact Or.inr h
        · intro hoob
          rcases hrec.2.2 hoob with h | h
          · simp only [Bool.or_false] at h
            exact Or.inl h
          · exact Or.inr h
      · try dsimp only
        refine ⟨⟨by omega, by omega⟩, ?_, ?_⟩
        · intro p hpm
          rcases List.mem_append.mp hpm with h | h
          · exact Or.inl h
          · simp only [List.mem_singleton] at h
            right; omega
        · intro hoob
          simp only [Bool.or_false] at hoob
          exact Or.inl hoob
    · have hpe : pos = -1 := by omega
      rw [readAt_oob data pos (by omega)]
      try dsimp only
      split
      · try rw [if_neg hp]
        try dsimp only
        refine ⟨⟨by omega, by omega⟩, ?_, fun _ => Or.inr hpe⟩
        intro p hpm
        rcases List.mem_append.mp hpm with h | h
        · exact Or.inl h
        · simp only [List.mem_singleton] at h
          right; omega
      · try dsimp only
        refine ⟨⟨by omega, by omega⟩, ?_, fun _ => Or.inr hpe⟩
        intro p hpm
        rcases List.mem_append.mp hpm with h | h
        · exact Or.inl h
        · simp only [List.mem_singleton] at h
          right; omega

/-- Behaviour of the right walk on positions in [-1, n]: the position
stays in [-1, n] and only increases, every recorded read lies in
[-1, n], a freshly raised out-of-bounds flag forces the exit position to
be -1 or n, and a walk entered at -1 exits at -1 immediately. -/
theorem rightWalk_spec (data : List Int) (key : Int) :
    ∀ (fuel : Nat) (pos : Int) (ops : Nat) (reads : List Int) (oob : Bool),
      -1 ≤ pos → pos ≤ (data.length : Int) →
      (-1 ≤ (rightWalk data key fuel pos ops reads oob).pos ∧
        (rightWalk data key fuel pos ops reads oob).pos ≤ (data.length : Int)) ∧
      (∀ p ∈ (rightWalk data key fuel pos ops reads oob).reads,
        p ∈ reads ∨ (-1 ≤ p ∧ p ≤ (data.length : Int))) ∧
      ((rightWalk data key fuel pos ops reads oob).oob = true →
        oob = true ∨ (rightWalk data key fuel pos ops reads oob).pos = -1 ∨
          (rightWalk data key fuel pos ops reads oob).pos = (data.length : Int)) ∧
      (pos = -1 → (rightWalk data key fuel pos ops reads oob).pos = -1) := by
  intro fuel
  induction fuel with
  | zero =>
    intro pos ops reads oob h1 h2
    rw [rightWalk]
    by_cases hb : 0 ≤ pos ∧ pos < (data.length : Int)
    · rw [readAt_inb data pos hb]
      try dsimp only
      split
      · try rw [if_pos hb]
        try dsimp only
        refine ⟨⟨by omega, by omega⟩, ?_, ?_, fun hpe => by omega⟩
        · intro p hpm
          rcases List.mem_append.mp hpm with h | h
          · exact Or.inl h
          · simp only [List.mem_singleton] at h
            right; omega
        · intro hoob
          simp only [Bool.or_false] at hoob
          exact Or.inl hoob
      · try dsimp only
        refine ⟨⟨by omega, by omega⟩, ?_, ?_, fun hpe => hpe⟩
        · intro p hpm
          rcases List.mem_append.mp hpm with h | h
          · exact Or.inl h
          · simp only [List.mem_singleton] at h
            right; omega
        · intro hoob
          simp only [Bool.or_false] at hoob
          exact Or.inl hoob
    · rw [readAt_oob data pos hb]
      try dsimp only
      split
      · try rw [if_neg hb]
        try dsimp only
        refine ⟨⟨by omega, by omega⟩, ?_, fun _ => by omega, fun hpe => hpe⟩
        intro p hpm
        rcases List.mem_append.mp hpm with h | h
        · exact Or.inl h
        · simp only [List.mem_singleton] at h
          right; omega
      · try dsimp only
        refine ⟨⟨by omega, by omega⟩, ?_, fun _ => by omega, fun hpe => hpe⟩
        intro p hpm
        rcases List.mem_append.mp hpm with h | h
        · exact Or.inl h
        · simp only [List.mem_singleton] at h
          right; omega
  | succ f ih =>
    intro pos ops reads oob h1 h2
    rw [rightWalk]
    by_cases hb : 0 ≤ pos ∧ pos < (data.length : Int)
    · rw [readAt_inb data pos hb]
      try dsimp only
      split
      · try rw [if_pos hb]
        try dsimp only
        have hrec := ih (pos + 1) (ops + 1) (reads ++ [pos]) (oob || false)
          (by omega) (by omega)
        refine ⟨⟨hrec.1.1, hrec.1.2⟩, ?_, ?_, fun hpe => by omega⟩
        · intro p hpm
          rcases hrec.2.1 p hpm with h | h
          · rcases List.mem_append.mp h with h | h
            · exact Or.inl h
            · simp only [List.mem_singleton] at h
              right; omega
          · exact Or.inr h
        · intro hoob
          rcases hrec.2.2.1 hoob with h | h
          · simp only [Bool.or_false] at h
            exact Or.inl h
          · exact Or.inr h
      · try dsimp only
        refine ⟨⟨by omega, by omega⟩, ?_, ?_, fun hpe => hpe⟩
        · intro p hpm
          rcases List.mem_append.mp hpm with h | h
          · exact Or.inl h
          · simp only [List.mem_singleton] at h
            right; omega
        · intro hoob
          simp only [Bool.or_false] at hoob
          exact Or.inl hoob
    · rw [readAt_oob data pos hb]
      try dsimp only
      split
      · try rw [if_neg hb]
        try dsimp only
        refine ⟨⟨by omega, by omega⟩, ?_, fun _ => by omega, fun hpe => hpe⟩
        intro p hpm
        rcases List.mem_append.mp hpm with h | h
        · exact Or.inl h
        · simp only [List.mem_singleton] at h
          right; omega
      · try dsimp only
        refine ⟨⟨by omega, by omega⟩, ?_, fun _ => by omega, fun hpe => hpe⟩
        intro p hpm
        rcases List.mem_append.mp hpm with h | h
        · exact Or.inl h
        · simp only [List.mem_singleton] at h
          right; omega

end QO

namespace QO

/-- getElem? agrees with getD on in-range indices. -/
theorem getD_getElem? (l : List Int) (m : Nat) (h : m < l.length) :
    l[m]? = some (l.getD m 0) := by
  rw [List.getElem?_eq_getElem h, List.getD_eq_getElem?_getD, List.getElem?_eq_getElem h]
  rfl

/-- linear_search performs at most 20 comparisons counted by `operations`
(10 in each refinement walk). -/
theorem linearSearch_ops (data : List Int) (key : Int) (pos : Int) :
    (linearSearch data key pos).1.ops ≤ 20 := by
  rw [linearSearch]
  dsimp only
  split
  · dsimp only; omega
  · have h1 := leftWalk_ops data key 10 pos 0 [pos] (readAt data pos).2
    generalize leftWalk data key 10 pos 0 [pos] (readAt data pos).2 = s1 at h1 ⊢
    have h2 := rightWalk_ops data key 10 s1.pos s1.ops s1.reads s1.oob
    generalize rightWalk data key 10 s1.pos s1.ops s1.reads s1.oob = s2 at h2 ⊢
    split
    · split
      · dsimp only; omega
      · dsimp only; omega
    · dsimp only; omega

/-- linear_search never returns a wrong index: the result is -1 or an
in-range index holding the key. -/
theorem linearSearch_correct (data : List Int) (key pos : Int)
    (h0 : 0 ≤ pos) (hlt : pos < (data.length : Int)) :
    (linearSearch data key pos).2 = -1 ∨
      (0 ≤ (linearSearch data key pos).2 ∧
        data[(linearSearch data key pos).2.toNat]? = some key) := by
  rw [linearSearch]
  dsimp only
  rw [readAt_inb data pos ⟨h0, hlt⟩]
  dsimp only
  split
  · rename_i hk
    right
    refine ⟨h0, ?_⟩
    have hn : pos.toNat < data.length := by omega
    rw [getD_getElem? _ _ hn]
    have hkey : data.getD pos.toNat 0 = key := by simpa using hk
    rw [hkey]
  · generalize leftWalk data key 10 pos 0 [pos] false = s1
    generalize rightWalk data key 10 s1.pos s1.ops s1.reads s1.oob = s2
    split
    · rename_i hbnd
      split
      · rename_i hk2
        right
        dsimp only
        refine ⟨hbnd.1, ?_⟩
        have hn : s2.pos.toNat < data.length := by omega
        rw [getD_getElem? _ _ hn]
        simp only [beq_iff_eq] at hk2
        rw [hk2]
      · left; rfl
    · left; rfl

/-- binary_search never returns a wrong index: the result is -1 or an
in-range index holding the key (for any fuel and any interval with
left ≥ 0 and right < n). -/
theorem binarySearch_correct (data : List Int) (key : Int) :
    ∀ (fuel : Nat) (left right : Int) (ops : Nat),
      0 ≤ left → right < (data.length : Int) →
      (binarySearch data key fuel left right ops).1 = -1 ∨
        (0 ≤ (binarySearch data key fuel left right ops).1 ∧
          data[(binarySearch data key fuel left right ops).1.toNat]? = some key) := by
  intro fuel
  induction fuel with
  | zero =>
    intro left right ops h1 h2
    rw [binarySearch]
    split
    · left; rfl
    · left; rfl
  | succ f ih =>
    intro left right ops h1 h2
    rw [binarySearch]
    split
    · rename_i hlr
      dsimp only
      have hmid1 : 0 ≤ (right - left).tdiv 2 := Int.tdiv_nonneg (by omega) (by omega)
      have hmid2 : (right - left).tdiv 2 ≤ right - left := by
        rw [Int.tdiv_eq_ediv (by omega) (by omega)]
        exact Int.ediv_le_self 2 (by omega)
      split
      · rename_i hveq
        right
        refine ⟨by omega, ?_⟩
        have hn : (left + (right - left).tdiv 2).toNat < data.length := by omega
        rw [getD_getElem? _ _ hn]
        simp only [beq_iff_eq] at hveq
        rw [hveq]
      · split
        · exact ih _ _ _ (by omega) h2
        · exact ih _ _ _ h1 (by omega)
    · left; rfl

/-- The predicted-and-clamped start position is in range for nonempty
data. -/
theorem clampedPos_bounds (data : List Int) (key : Int) (hne : data ≠ []) :
    0 ≤ clampedPos data key ∧ clampedPos data key < (data.length : Int) := by
  have hlen : 0 < data.length := List.length_pos.mpr hne
  rw [clampedPos]
  try dsimp only
  constructor
  · exact le_max_left _ _
  · have h1 : Min.min (roundHalfAway ((fitLR data).1 * (key : ℚ) + (fitLR data).2))
        ((data.length : Int) - 1) ≤ (data.length : Int) - 1 := min_le_right _ _
    refine lt_of_le_of_lt (max_le (by omega) h1) (by omega)

end QO

namespace QO

/-! ## Claims C9 and C10: learned index -/

/-- Claim C9 (amended): for every nonempty integer array, every key and
either refinement mode, search never returns a wrong index — a
non-negative result is an index holding the key — hence it returns −1
for every absent key (in particular for keys outside the value range);
and in the linear-refine mode the operations counter after the search is
at most 21 (in fact at most 20).  A present key may however be missed:
see the counterexample, which forces dropping the completeness half of
the original claim. -/
theorem c9_amended (data : List Int) (key : Int) (ty : String) (hne : data ≠ []) :
    ((searchLI data key ty).1 = -1 ∨
      (0 ≤ (searchLI data key ty).1 ∧
        data[(searchLI data key ty).1.toNat]? = some key)) ∧
    (key ∉ data → (searchLI data key ty).1 = -1) ∧
    (ty = "linear" → (searchLI data key ty).2 ≤ 21) := by
  obtain ⟨hc0, hc1⟩ := clampedPos_bounds data key hne
  have hmain : (searchLI data key ty).1 = -1 ∨
      (0 ≤ (searchLI data key ty).1 ∧
        data[(searchLI data key ty).1.toNat]? = some key) := by
    rw [searchLI]
    dsimp only
    split
    · exact linearSearch_correct data key _ hc0 hc1
    · apply binarySearch_correct
      · exact le_max_left _ _
      · have h1 : Min.min ((data.length : Int) - 1)
            (clampedPos data key + Max.max 1 (intSqrt data.length : Int)) ≤
              (data.length : Int) - 1 := min_le_left _ _
        have hlen : 0 < data.length := List.length_pos.mpr hne
        omega
  refine ⟨hmain, ?_, ?_⟩
  · intro hnotmem
    rcases hmain with h | ⟨hge, hsome⟩
    · exact h
    · exact absurd (List.getElem?_mem hsome) hnotmem
  · intro hty
    subst hty
    rw [searchLI]
    dsimp only
    rw [if_pos (by rfl)]
    dsimp only
    exact le_trans (linearSearch_ops data key _) (by omega)

/-- Witness for `c9_amended` at data [3, 7], key 7, linear mode. -/
theorem c9_amended_witness :
    ([3, 7] : List Int) ≠ [] ∧
    ((((searchLI [3, 7] 7 "linear").1 = -1 ∨
      (0 ≤ (searchLI [3, 7] 7 "linear").1 ∧
        ([3, 7] : List Int)[(searchLI [3, 7] 7 "linear").1.toNat]? = some 7)) ∧
    ((7 : Int) ∉ ([3, 7] : List Int) → (searchLI [3, 7] 7 "linear").1 = -1) ∧
    ("linear" = "linear" → (searchLI [3, 7] 7 "linear").2 ≤ 21))) :=
  ⟨by decide, c9_amended [3, 7] 7 "linear" (by decide)⟩

/-- The 21-element array of the C9 counterexample: a single 0 followed by
twenty copies of 100.  The OLS fit predicts position 82 for key 0, which
clamps to 20; neither the ten-step linear walk nor the ±4 binary window
reaches index 0. -/
def c9data : List Int := 0 :: List.replicate 20 100

/-- Claim C9 counterexample: key 0 is present (at index 0) in the sorted
array `c9data`, yet search returns −1 in both refinement modes. -/
theorem c9_counterexample :
    (0 : Int) ∈ c9data ∧
    (searchLI c9data 0 "linear").1 = -1 ∧
    (searchLI c9data 0 "binary").1 = -1 := by
  have hlen : c9data.length = 21 := by decide
  have hs : fitSums c9data = ⟨210, 2000, 21000, 2870⟩ := by decide
  have hfit : fitLR c9data = (100 / 77, 19000 / 231) := by
    simp only [fitLR, hs, hlen]
    norm_num
  have hcp : clampedPos c9data 0 = 20 := by
    simp only [clampedPos, hfit, hlen]
    have hr : roundHalfAway ((100 / 77 : ℚ) * ((0 : Int) : ℚ) + 19000 / 231) = 82 := by
      rw [roundHalfAway, if_neg (by norm_num)]
      norm_num
    rw [hr]
    decide
  refine ⟨by decide, ?_, ?_⟩
  · rw [searchLI, hcp]
    decide
  · rw [searchLI, hcp]
    decide

/-- Claim C10 (amended): for every nonempty array and key, the
linear-refine search reads only positions in [−1, n] — the out-of-bounds
branch IS reachable, but only at the two sentinel positions −1 and n
probed by a loop condition — and whenever an out-of-bounds read happens
the search returns −1 (the bound conjuncts of the loop conditions and of
the final check make the control flow independent of the value read). -/
theorem c10_amended (data : List Int) (key : Int) (hne : data ≠ []) :
    (∀ p ∈ (linearSearch data key (clampedPos data key)).1.reads,
      -1 ≤ p ∧ p ≤ (data.length : Int)) ∧
    ((linearSearch data key (clampedPos data key)).1.oob = true →
      (linearSearch data key (clampedPos data key)).2 = -1) := by
  obtain ⟨hc0, hc1⟩ := clampedPos_bounds data key hne
  generalize hcp : clampedPos data key = pos at hc0 hc1 ⊢
  rw [linearSearch]
  dsimp only
  rw [readAt_inb data pos ⟨hc0, hc1⟩]
  dsimp only
  split
  · refine ⟨?_, ?_⟩
    · intro p hpm
      simp only [List.mem_singleton] at hpm
      omega
    · intro hoob
      simp at hoob
  · have hL := leftWalk_spec data key 10 pos 0 [pos] false (by omega) (by omega)
    generalize leftWalk data key 10 pos 0 [pos] false = s1 at hL ⊢
    have hR := rightWalk_spec data key 10 s1.pos s1.ops s1.reads s1.oob
      hL.1.1 (by have := hL.1.2; omega)
    generalize rightWalk data key 10 s1.pos s1.ops s1.reads s1.oob = s2 at hR ⊢
    have hreads : ∀ p ∈ s2.reads, -1 ≤ p ∧ p ≤ (data.length : Int) := by
      intro p hp
      rcases hR.2.1 p hp with h | h
      · rcases hL.2.1 p h with h | h
        · simp only [List.mem_singleton] at h
          omega
        · omega
      · omega
    split
    · rename_i hbnd
      have hnoob : s2.oob ≠ true := by
        intro hoob
        rcases hR.2.2.1 hoob with h | h | h
        · rcases hL.2.2 h with h | h
          · simp at h
          · have := hR.2.2.2 h
            omega
        · omega
        · omega
      split
      · refine ⟨?_, fun hoob => absurd (by dsimp only at hoob; exact hoob) hnoob⟩
        intro p hpm
        dsimp only at hpm
        rcases List.mem_append.mp hpm with h | h
        · exact hreads p h
        · simp only [List.mem_singleton] at h
          omega
      · refine ⟨?_, fun hoob => rfl⟩
        intro p hpm
        dsimp only at hpm
        rcases List.mem_append.mp hpm with h | h
        · exact hreads p h
        · simp only [List.mem_singleton] at h
          omega
    · exact ⟨hreads, fun hoob => rfl⟩

/-- Witness for `c10_amended` at data [5, 6], key 3. -/
theorem c10_amended_witness :
    ([5, 6] : List Int) ≠ [] ∧
    ((∀ p ∈ (linearSearch [5, 6] 3 (clampedPos [5, 6] 3)).1.reads,
      -1 ≤ p ∧ p ≤ ((([5, 6] : List Int)).length : Int)) ∧
    ((linearSearch [5, 6] 3 (clampedPos [5, 6] 3)).1.oob = true →
      (linearSearch [5, 6] 3 (clampedPos [5, 6] 3)).2 = -1)) :=
  ⟨by decide, c10_amended [5, 6] 3 (by decide)⟩

/-- Claim C10 counterexample: on the sorted array [5, 6] with key 3, the
predicted position clamps to 1, the left walk reaches index 0 with
data[0] > key, steps to −1, and the next loop-condition probe reads
data[-1]: the out-of-bounds branch is reached (the claim asserted it is
unreachable). -/
theorem c10_counterexample :
    (linearSearch [5, 6] 3 (clampedPos [5, 6] 3)).1.oob = true ∧
    (-1 : Int) ∈ (linearSearch [5, 6] 3 (clampedPos [5, 6] 3)).1.reads := by
  have hs : fitSums [5, 6] = ⟨1, 11, 6, 1⟩ := by decide
  have hlen : ([5, 6] : List Int).length = 2 := by decide
  have hfit : fitLR [5, 6] = (1, 5) := by
    simp only [fitLR, hs, hlen]
    norm_num
  have hcp : clampedPos [5, 6] 3 = 1 := by
    simp only [clampedPos, hfit, hlen]
    have hr : roundHalfAway ((1 : ℚ) * ((3 : Int) : ℚ) + 5) = 8 := by
      rw [roundHalfAway, if_neg (by norm_num)]
      norm_num
    rw [hr]
    decide
  rw [hcp]
  refine ⟨by decide, by decide⟩

end QO

namespace QO

/-! ## IKKBZ optimizer (join_ordering/join_order.cpp) -/

/-- Record from join_order.cpp. -/
structure JRecord where
  id : Int
  data : String
  deriving Repr, DecidableEq

/-- Relation from join_order.cpp. -/
structure Relation where
  name : String
  size : Int
  records : List JRecord
  deriving Repr, DecidableEq

/-- JoinCondition from join_order.cpp; the double selectivity is modelled
as a rational (it is only ever multiplied into the real-valued cost). -/
structure JoinCondition where
  left : String
  right : String
  selectivity : ℚ
  deriving Repr, DecidableEq

/-- JoinGraph from join_order.cpp; the adjacency unordered_map is an
association list in insertion order. -/
structure JoinGraph where
  relations : List Relation
  conditions : List JoinCondition
  adjacency : List (String × List String)
  deriving Repr, DecidableEq

/-- Adjacency lookup (`find`). -/
def adjFind? (adj : List (String × List String)) (k : String) : Option (List String) :=
  (adj.find? (fun p => p.1 == k)).map (fun p => p.2)

/-- Adjacency insert-or-assign (`operator[] = v`). -/
def adjSet (adj : List (String × List String)) (k : String) (v : List String) :
    List (String × List String) :=
  if (adj.find? (fun p => p.1 == k)).isSome then
    adj.map (fun p => if p.1 == k then (p.1, v) else p)
  else adj ++ [(k, v)]

/-- Adjacency `operator[].push_back(v)`. -/
def adjPush (adj : List (String × List String)) (k v : String) :
    List (String × List String) :=
  match adjFind? adj k with
  | some l => adjSet adj k (l ++ [v])
  | none => adj ++ [(k, [v])]

/-- JoinGraph::addRelation. -/
def JoinGraph.addRelation (g : JoinGraph) (r : Relation) : JoinGraph :=
  { g with relations := g.relations ++ [r], adjacency := adjSet g.adjacency r.name [] }

/-- JoinGraph::addJoinCondition. -/
def JoinGraph.addJoinCondition (g : JoinGraph) (c : JoinCondition) : JoinGraph :=
  { g with
    conditions := g.conditions ++ [c]
    adjacency := adjPush (adjPush g.adjacency c.left c.right) c.right c.left }

/-- JoinGraph::hasCycle: depth-first search from `current` with parent
exclusion, threading the visited set; an already-visited non-parent
neighbour reports a cycle and returns immediately.  `fuel` bounds the
recursion depth; each recursive call visits a previously unvisited
vertex, so any fuel at least the number of adjacency keys is exact. -/
def hasCycleGo (g : JoinGraph) : Nat → String → String → List String → Bool × List String
  | 0, _, _, visited => (false, visited)
  | fuel + 1, current, parent, visited =>
    let visited1 := visited ++ [current]
    let neighbors := (adjFind? g.adjacency current).getD []
    neighbors.foldl
      (fun acc nb =>
        if acc.1 then acc
        else if nb == parent then acc
        else if acc.2.contains nb then (true, acc.2)
        else hasCycleGo g fuel nb current acc.2)
      (false, visited1)

/-- JoinGraph::isAcyclic: a single DFS from the FIRST relation only.
(On an empty relation vector the C++ indexes relations[0] out of bounds;
that case is modelled as vacuously acyclic and never instantiated.) -/
def isAcyclic (g : JoinGraph) : Bool :=
  match g.relations with
  | [] => true
  | r :: _ => !(hasCycleGo g (g.adjacency.length + 1) r.name "" []).1

/-- One iteration of the conditions loop in IKKBZOptimizer::estimateCost:
a condition incident to `relation` multiplies the cost by
selectivity · neighbour-size.  The C++ dereferences `end()` for a missing
neighbour relation (undefined behaviour), modelled as an error. -/
noncomputable def costStepR (g : JoinGraph) (relation : String) (cost : ℝ)
    (cond : JoinCondition) : Except Err ℝ :=
  if cond.left == relation || cond.right == relation then
    let other := if cond.left == relation then cond.right else cond.left
    match g.relations.find? (fun r => r.name == other) with
    | none => .error .keyNotFound
    | some orel => .ok (cost * ((cond.selectivity : ℝ) * (orel.size : ℝ)))
  else .ok cost

/-- IKKBZOptimizer::estimateCost: relation size, times
selectivity · neighbour-size for every incident condition, times
log of the first record's data width.  A missing relation throws;
`records[0]` of an empty record vector is undefined behaviour in C++,
modelled as an error. -/
noncomputable def estimateCost (g : JoinGraph) (relation : String) : Except Err ℝ := do
  match g.relations.find? (fun r => r.name == relation) with
  | none => .error .keyNotFound
  | some rel => do
    let cost ← g.conditions.foldlM (costStepR g relation) ((rel.size : ℝ))
    match rel.records.head? with
    | none => .error .internal
    | some r0 => .ok (cost * Real.log ((r0.data.length : ℝ)))

/-- Rational mirror of `costStepR`, used to compute the pre-logarithm
factor of `estimateCost` exactly (see `estimateCost_eq`). -/
def costStepQ (g : JoinGraph) (relation : String) (cost : ℚ)
    (cond : JoinCondition) : Except Err ℚ :=
  if cond.left == relation || cond.right == relation then
    let other := if cond.left == relation then cond.right else cond.left
    match g.relations.find? (fun r => r.name == other) with
    | none => .error .keyNotFound
    | some orel => .ok (cost * (cond.selectivity * (orel.size : ℚ)))
  else .ok cost

/-- Computable companion of `estimateCost`: the exact rational
pre-logarithm factor together with the record width. -/
def estimateCostQ (g : JoinGraph) (relation : String) : Except Err (ℚ × Nat) := do
  match g.relations.find? (fun r => r.name == relation) with
  | none => .error .keyNotFound
  | some rel => do
    let cost ← g.conditions.foldlM (costStepQ g relation) ((rel.size : ℚ))
    match rel.records.head? with
    | none => .error .internal
    | some r0 => .ok (cost, r0.data.length)

open Classical in
/-- IKKBZOptimizer::findBestStartingRelation: first strict minimum of the
estimated costs over the relation vector (minCost starts at DBL_MAX,
modelled as `none`). -/
noncomputable def findBestStartingRelation (g : JoinGraph) : Except Err String := do
  let acc ← g.relations.foldlM (fun (acc : String × Option ℝ) rel => do
      let cost ← estimateCost g rel.name
      match acc.2 with
      | none => pure (rel.name, some cost)
      | some m => if cost < m then pure (rel.name, some cost) else pure acc)
    ("", none)
  pure acc.1

open Classical in
/-- IKKBZOptimizer::findNextBestRelation: first strict minimum over the
unprocessed neighbours of `current`; `adjacencyList.at` throws
std::out_of_range for an absent key; with no candidate the empty string
is returned. -/
noncomputable def findNextBestRelation (g : JoinGraph) (current : String)
    (processed : List String) : Except Err String := do
  match adjFind? g.adjacency current with
  | none => .error .keyNotFound
  | some neighbors => do
    let acc ← neighbors.foldlM (fun (acc : String × Option ℝ) nb => do
        if processed.contains nb then pure acc
        else do
          let cost ← estimateCost g nb
          match acc.2 with
          | none => pure (nb, some cost)
          | some m => if cost < m then pure (nb, some cost) else pure acc)
      ("", none)
    pure acc.1

/-- The while loop of IKKBZOptimizer::optimizeJoinOrder; each iteration
extends the order by one name, so `relations.length` fuel is exact. -/
noncomputable def optimizeLoop (g : JoinGraph) :
    Nat → List String → List String → Except Err (List String)
  | 0, joinOrder, _ => .ok joinOrder
  | fuel + 1, joinOrder, processed =>
    if joinOrder.length < g.relations.length then do
      let next ← findNextBestRelation g (joinOrder.getLastD "") processed
      optimizeLoop g fuel (joinOrder ++ [next]) (processed ++ [next])
    else .ok joinOrder

/-- IKKBZOptimizer::optimizeJoinOrder: rejects a graph the (first-
component-only) DFS reports as cyclic, then greedily extends from the
best starting relation. -/
noncomputable def optimizeJoinOrder (g : JoinGraph) : Except Err (List String) :=
  if isAcyclic g then do
    let start ← findBestStartingRelation g
    optimizeLoop g g.relations.length [start] [start]
  else .error .acyclicRequired

end QO

namespace QO

/-- bind on an ok value reduces. -/
theorem exceptBind_ok {ε α β : Type} (x : α) (f : α → Except ε β) :
    (Except.ok x : Except ε α) >>= f = f x := rfl

/-- bind on an error propagates the error. -/
theorem exceptBind_error {ε α β : Type} (e : ε) (f : α → Except ε β) :
    (Except.error e : Except ε α) >>= f = .error e := rfl

/-- The real-valued conditions fold is the cast of the rational one. -/
theorem costFold_eq (g : JoinGraph) (relation : String) :
    ∀ (conds : List JoinCondition) (q : ℚ),
      conds.foldlM (costStepR g relation) ((q : ℝ)) =
        (conds.foldlM (costStepQ g relation) q).map (fun x => ((x : ℚ) : ℝ)) := by
  intro conds
  induction conds with
  | nil =>
    intro q
    rfl
  | cons c cs ih =>
    intro q
    rw [List.foldlM_cons, List.foldlM_cons, costStepR, costStepQ]
    by_cases hc : (c.left == relation || c.right == relation) = true
    · rw [if_pos hc, if_pos hc]
      dsimp only
      cases hfind : g.relations.find?
          (fun r => r.name == (if c.left == relation then c.right else c.left)) with
      | none =>
        simp only [hfind]
        rfl
      | some orel =>
        simp only [hfind]
        rw [exceptBind_ok, exceptBind_ok]
        have hcast : (q : ℝ) * ((c.selectivity : ℚ) : ℝ) * ((orel.size : Int) : ℝ) =
            ((q * (c.selectivity * (orel.size : ℚ)) : ℚ) : ℝ) := by
          push_cast
          ring
        rw [show (q : ℝ) * (((c.selectivity : ℚ) : ℝ) * ((orel.size : Int) : ℝ)) =
            ((q * (c.selectivity * (orel.size : ℚ)) : ℚ) : ℝ) by push_cast; ring]
        exact ih _
    · rw [if_neg hc, if_neg hc, exceptBind_ok, exceptBind_ok]
      exact ih _

/-- estimateCost factors through its computable rational companion: the
cost is the rational factor times the log of the record width. -/
theorem estimateCost_eq (g : JoinGraph) (relation : String) :
    estimateCost g relation = (estimateCostQ g relation).map
      (fun p => ((p.1 : ℚ) : ℝ) * Real.log ((p.2 : ℕ) : ℝ)) := by
  rw [estimateCost, estimateCostQ]
  cases hfind : g.relations.find? (fun r => r.name == relation) with
  | none =>
    simp only [hfind]
    rfl
  | some rel =>
    simp only [hfind]
    rw [show ((rel.size : Int) : ℝ) = (((rel.size : Int) : ℚ) : ℝ) by push_cast; ring]
    rw [costFold_eq]
    cases hfold : g.conditions.foldlM (costStepQ g relation) ((rel.size : ℚ)) with
    | error e =>
      rfl
    | ok q =>
      cases hh : rel.records.head? with
      | none => rfl
      | some r0 => rfl

end QO

namespace QO

/-! ## Claim C8: IKKBZ cycle rejection -/

/-- The C8 failing input: four relations A, D, B, C; an edge A—D, and a
cycle between B and C (the same join condition added twice, giving a
two-edge cycle B—C—B).  The cycle lies in a component not connected to
the first relation A.  All record widths are 1 so every estimated cost
is 0 (log 1 = 0) and the optimizer's argmin choices are determined. -/
def gBug : JoinGraph :=
  JoinGraph.addJoinCondition
    (JoinGraph.addJoinCondition
      (JoinGraph.addJoinCondition
        (JoinGraph.addRelation
          (JoinGraph.addRelation
            (JoinGraph.addRelation
              (JoinGraph.addRelation
                { relations := [], conditions := [], adjacency := [] }
                ⟨"A", 1, [⟨1, "x"⟩]⟩)
              ⟨"D", 1, [⟨1, "x"⟩]⟩)
            ⟨"B", 1, [⟨1, "x"⟩]⟩)
          ⟨"C", 1, [⟨1, "x"⟩]⟩)
        ⟨"A", "D", 1⟩)
      ⟨"B", "C", 1⟩)
    ⟨"B", "C", 1⟩

/-- A relation of record width 1 has estimated cost 0: the cost is the
rational factor times log 1 = 0. -/
theorem cost_of_width_one (g : JoinGraph) (n : String) (q : ℚ)
    (h : estimateCostQ g n = .ok (q, 1)) : estimateCost g n = .ok 0 := by
  rw [estimateCost_eq, h]
  simp [Except.map, Real.log_one]

/-- Every relation of `gBug` has estimated cost 0 (record width 1). -/
theorem gBug_cost_zero :
    estimateCost gBug "A" = .ok 0 ∧ estimateCost gBug "D" = .ok 0 ∧
    estimateCost gBug "B" = .ok 0 ∧ estimateCost gBug "C" = .ok 0 :=
  ⟨cost_of_width_one _ _ _ rfl, cost_of_width_one _ _ _ rfl,
   cost_of_width_one _ _ _ rfl, cost_of_width_one _ _ _ rfl⟩

/-- findBestStartingRelation on `gBug` picks "A" (all costs are 0, so the
first strict minimum is the first relation). -/
theorem gBug_start : findBestStartingRelation gBug = .ok "A" := by
  obtain ⟨hA, hD, hB, hC⟩ := gBug_cost_zero
  rw [findBestStartingRelation]
  rw [show gBug.relations =
    [⟨"A", 1, [⟨1, "x"⟩]⟩, ⟨"D", 1, [⟨1, "x"⟩]⟩, ⟨"B", 1, [⟨1, "x"⟩]⟩,
     ⟨"C", 1, [⟨1, "x"⟩]⟩] from rfl]
  simp [List.foldlM_cons, List.foldlM_nil, hA, hD, hB, hC, exceptBind_ok]
  rfl

/-- One iteration of the optimize while-loop with fuel and a pending slot. -/
theorem optimizeLoop_succ (g : JoinGraph) (fuel : Nat) (jo p : List String)
    (hlt : jo.length < g.relations.length) :
    optimizeLoop g (fuel + 1) jo p =
      (findNextBestRelation g (jo.getLastD "") p) >>= fun next =>
        optimizeLoop g fuel (jo ++ [next]) (p ++ [next]) := by
  rw [optimizeLoop, if_pos hlt]

/-- From "A" the optimizer moves to its only unprocessed neighbour "D". -/
theorem gBug_next1 : findNextBestRelation gBug "A" ["A"] = .ok "D" := by
  obtain ⟨hA, hD, hB, hC⟩ := gBug_cost_zero
  rw [findNextBestRelation]
  rw [show adjFind? gBug.adjacency "A" = some ["D"] from rfl]
  simp [List.foldlM_cons, List.foldlM_nil, hD, exceptBind_ok]

/-- From "D" every neighbour is processed, so the empty-string default
is returned as the next relation. -/
theorem gBug_next2 : findNextBestRelation gBug "D" ["A", "D"] = .ok "" := by
  rw [findNextBestRelation]
  rw [show adjFind? gBug.adjacency "D" = some ["A"] from rfl]
  simp [List.foldlM_cons, List.foldlM_nil]
  rfl

/-- The empty string has no adjacency entry: `adjacencyList.at("")`
throws std::out_of_range in the C++. -/
theorem gBug_next3 : findNextBestRelation gBug "" ["A", "D", ""] = .error .keyNotFound := by
  rw [findNextBestRelation]
  rw [show adjFind? gBug.adjacency "" = none from rfl]

/-- On `gBug` the optimizer passes the acyclicity guard, walks A, D, then
the empty-string default, and crashes looking up the empty string's
adjacency instead of reporting the cycle. -/
theorem gBug_opt : optimizeJoinOrder gBug = .error .keyNotFound := by
  have hacyc : isAcyclic gBug = true := by decide
  rw [optimizeJoinOrder, if_pos hacyc, gBug_start, exceptBind_ok]
  show optimizeLoop gBug (3 + 1) ["A"] ["A"] = .error .keyNotFound
  rw [optimizeLoop_succ gBug 3 ["A"] ["A"] (by decide)]
  rw [show (["A"] : List String).getLastD "" = "A" from rfl, gBug_next1, exceptBind_ok]
  show optimizeLoop gBug (2 + 1) ["A", "D"] ["A", "D"] = .error .keyNotFound
  rw [optimizeLoop_succ gBug 2 ["A", "D"] ["A", "D"] (by decide)]
  rw [show (["A", "D"] : List String).getLastD "" = "D" from rfl, gBug_next2, exceptBind_ok]
  show optimizeLoop gBug (1 + 1) ["A", "D", ""] ["A", "D", ""] = .error .keyNotFound
  rw [optimizeLoop_succ gBug 1 ["A", "D", ""] ["A", "D", ""] (by decide)]
  rw [show (["A", "D", ""] : List String).getLastD "" = "" from rfl, gBug_next3, exceptBind_error]

/-- C8: refuted as a code bug.  The claim says every join graph with a
cycle anywhere (including a component not connected to the first
relation) makes optimizeJoinOrder raise AcyclicRequired.  On `gBug` the
code's own DFS started at "B" finds the B—C cycle, yet `isAcyclic` (which
searches only from the first relation "A") returns true; the optimizer
then walks A, D, exhausts the component, inserts the empty-string
default and crashes on the missing adjacency key (std::out_of_range in
the C++), so it neither raises AcyclicRequired nor produces an ordering
of the relations. -/
theorem c8_bug :
    (hasCycleGo gBug (gBug.adjacency.length + 1) "B" "" []).1 = true ∧
    isAcyclic gBug = true ∧
    optimizeJoinOrder gBug = .error .keyNotFound ∧
    optimizeJoinOrder gBug ≠ .error .acyclicRequired :=
  ⟨by decide, by decide, gBug_opt, by rw [gBug_opt]; exact fun h => by cases h⟩

end QO

namespace QO

/-! ## Planner embedding (test_bench/planner.h)

The five planners share a schema, parsed query components and a working
table-size map `tableSizes : unordered_map<string, size_t>`, modelled as
an association list in insertion order.  `operator[]` on a read
default-inserts a zero value in C++; a read is modelled as `amGetD _ _ 0`
without recording the insertion, because the inserted value equals the
default the model reads and no planner observes the key order afterwards
(the single iteration over the map, GreedyJoinPlan's min_element seed,
happens in the C++ in unspecified hash order anyway and is modelled over
the insertion order).  `operator[]` on the left of an assignment is
`amSet`, which overwrites in place or appends. -/

/-- Association-list lookup (unordered_map::find). -/
def amFind? {α : Type} (m : List (String × α)) (k : String) : Option α :=
  (m.find? (fun p => p.1 == k)).map (fun p => p.2)

/-- Read through operator[] (see the section comment on default-inserts). -/
def amGetD {α : Type} (m : List (String × α)) (k : String) (d : α) : α :=
  (amFind? m k).getD d

/-- Assignment through operator[]: overwrite in place or append. -/
def amSet {α : Type} (m : List (String × α)) (k : String) (v : α) :
    List (String × α) :=
  if (m.find? (fun p => p.1 == k)).isSome then
    m.map (fun p => if p.1 == k then (p.1, v) else p)
  else m ++ [(k, v)]

/-- The working table-size map of every planner. -/
abbrev SizeMap := List (String × Nat)

/-- ScalarFilterComponent from test_bench/parser.h (the fields the
planners and the executor read). -/
structure ScalarFilter where
  lhsTable : String
  lhsColumn : String
  predicate : Op
  rhsValue : Field
  deriving Repr, DecidableEq

/-- JoinComponent from test_bench/parser.h.  The predicate field is
carried but ignored by both the planners and the executor (the join is
always an equi-join). -/
structure JoinC where
  lhsTable : String
  lhsColumn : String
  predicate : Op
  rhsTable : String
  rhsColumn : String
  deriving Repr, DecidableEq

/-- QueryComponents from test_bench/parser.h restricted to what the
planners read: table names, scalar filters and joins (dynamic filters
are never used by any planner or by the executor). -/
structure QueryComponents where
  tables : List String
  scalarFilters : List ScalarFilter
  joins : List JoinC
  deriving Repr, DecidableEq

/-- A component of componentExecutionOrder that the executor acts on. -/
inductive Step where
  | filter (f : ScalarFilter)
  | join (j : JoinC)
  deriving Repr, DecidableEq

/-- Plan::estimateFilterCostAndSelectivity: the input size is the CATALOG
size `schema->getTable(tableName)->data.size()`, not the planner's
current mapped size; cost = inputSize·SCAN_COST_FACTOR + inputSize·σ
with SCAN_COST_FACTOR = 1. -/
def estimateFilterCostAndSelectivity (sch : Schema) (f : ScalarFilter) :
    Except Err (ℚ × ℚ) := do
  let table ← getTable sch f.lhsTable
  let selectivity ← table.estimateSelectivity f.lhsColumn f.predicate f.rhsValue
  let inputSize := table.data.length
  pure ((inputSize : ℚ) * 1 + (inputSize : ℚ) * selectivity, selectivity)

/-- Plan::estimateJoinCostAndSelectivity: io = (l+r)·1, cpu = (l·r)·0.1
(the double literal 0.1 is modelled as the exact rational 1/10 under the
doubles-as-rationals convention); selectivity = min/max (division by a
zero max yields NaN in C++ and 0 in the rational model; no planner ever
reads the selectivity). -/
def estimateJoinCostAndSelectivity (leftSize rightSize : Nat) : ℚ × ℚ :=
  (((leftSize + rightSize : Nat) : ℚ) * 1 + ((leftSize * rightSize : Nat) : ℚ) * (1 / 10),
   ((Min.min leftSize rightSize : Nat) : ℚ) / ((Max.max leftSize rightSize : Nat) : ℚ))

/-- The cost component of `estimateJoinCostAndSelectivity`. -/
def estimateJoinCost (leftSize rightSize : Nat) : ℚ :=
  (estimateJoinCostAndSelectivity leftSize rightSize).1

/-- The scalar-filter step shared verbatim by all five planners: add the
estimated cost (based on the catalog size) to the running total, then
set the mapped size to the truncation of current-mapped-size · σ
(`static_cast<size_t>` of a non-negative double truncates toward zero,
hence the floor). -/
def filterStep (sch : Schema) (st : ℚ × SizeMap) (f : ScalarFilter) :
    Except Err (ℚ × SizeMap) := do
  let cs ← estimateFilterCostAndSelectivity sch f
  let outputSize := (Int.floor (((amGetD st.2 f.lhsTable 0 : Nat) : ℚ) * cs.2)).toNat
  pure (st.1 + cs.1, amSet st.2 f.lhsTable outputSize)

/-- The filters loop shared by all five planners. -/
def runFilters (sch : Schema) (filters : List ScalarFilter) (init : ℚ × SizeMap) :
    Except Err (ℚ × SizeMap) :=
  filters.foldlM (filterStep sch) init

/-- The join step shared by JoinsFirst, FiltersFirst, TryAllJoinOrder and
Greedy: add the estimated cost for the two current mapped sizes, set both
mapped sizes to their minimum. -/
def joinStep (st : ℚ × SizeMap) (j : JoinC) : ℚ × SizeMap :=
  let l := amGetD st.2 j.lhsTable 0
  let r := amGetD st.2 j.rhsTable 0
  let outputSize := Min.min l r
  (st.1 + estimateJoinCost l r, amSet (amSet st.2 j.lhsTable outputSize) j.rhsTable outputSize)

/-- The table-size initialisation loop shared by all five planners:
`tableSizes[name] = schema->getTable(name)->data.size()` in order. -/
def initSizes (sch : Schema) (tables : List String) : Except Err SizeMap :=
  tables.foldlM (fun m name => do
    let t ← getTable sch name
    pure (amSet m name t.data.length)) []

/-- FiltersFirstPlan::generatePlan: all filters in query order, then all
joins in query order; the execution order lists the filters then the
joins. -/
def filtersFirst (sch : Schema) (q : QueryComponents) :
    Except Err (ℚ × SizeMap × List Step) := do
  let m0 ← initSizes sch q.tables
  let st1 ← runFilters sch q.scalarFilters (0, m0)
  let st2 := q.joins.foldl joinStep st1
  pure (st2.1, st2.2, q.scalarFilters.map Step.filter ++ q.joins.map Step.join)

/-- JoinsFirstPlan::generatePlan: all joins in query order, then all
filters in query order. -/
def joinsFirst (sch : Schema) (q : QueryComponents) :
    Except Err (ℚ × SizeMap × List Step) := do
  let m0 ← initSizes sch q.tables
  let st1 := q.joins.foldl joinStep (0, m0)
  let st2 ← runFilters sch q.scalarFilters st1
  pure (st2.1, st2.2, q.joins.map Step.join ++ q.scalarFilters.map Step.filter)

end QO

namespace QO

/-- The permutation recursion of
TryAllJoinOrderPlan::generateJoinPermutations.  The C++ works in place on
the joins vector: with `pre` the fixed prefix arr[0..start) and `suf` the
tail arr[start..), the loop body swap(arr[start], arr[i]) moves suf[i] to
the front and the old front suf[0] to position i, then recurses on
start+1; `(suf.set i suf[0]).drop 1` is exactly the tail after that swap.
`fuel` bounds the recursion depth; each call shortens the tail by one, so
fuel = suf.length is exact. -/
def permGo {α : Type} : Nat → List α → List α → List (List α)
  | 0, pre, _ => [pre]
  | _ + 1, pre, [] => [pre]
  | fuel + 1, pre, b :: bs =>
    (List.range (b :: bs).length).flatMap
      (fun i => permGo fuel (pre ++ [(b :: bs).getD i b]) (((b :: bs).set i b).drop 1))

/-- TryAllJoinOrderPlan::generateJoinPermutations. -/
def generateJoinPermutations (q : QueryComponents) : List (List JoinC) :=
  permGo q.joins.length [] q.joins

/-- The best-permutation loop of TryAllJoinOrderPlan::generatePlan: each
permutation is costed by folding the join step from cost 0 and the
post-filter sizes; the first strictly smaller total wins.  `none` models
the DBL_MAX initial best (every finite total beats it). -/
def tryAllBest (m1 : SizeMap) :
    List (List JoinC) → Option (ℚ × SizeMap × List JoinC) → Option (ℚ × SizeMap × List JoinC)
  | [], best => best
  | p :: ps, best =>
    let r := List.foldl joinStep (0, m1) p
    let best2 := match best with
      | none => some (r.1, r.2, p)
      | some b => if r.1 < b.1 then some (r.1, r.2, p) else some b
    tryAllBest m1 ps best2

/-- TryAllJoinOrderPlan::generatePlan: filters in query order, then the
cheapest join permutation; totalCost = filter total + best join total,
tableSizes = the best permutation's sizes; the execution order lists the
filters then the winning permutation.  The permutation list is never
empty (a query without joins yields the single empty permutation), so
the `none` branch is unreachable and leaves the filter-only state. -/
def tryAllPlan (sch : Schema) (q : QueryComponents) :
    Except Err (ℚ × SizeMap × List Step) := do
  let m0 ← initSizes sch q.tables
  let st1 ← runFilters sch q.scalarFilters (0, m0)
  match tryAllBest st1.2 (generateJoinPermutations q) none with
  | none => pure (st1.1, st1.2, q.scalarFilters.map Step.filter)
  | some (bc, bs, ord) =>
    pure (st1.1 + bc, bs, q.scalarFilters.map Step.filter ++ ord.map Step.join)

/-- unordered_set::insert on the joined-tables set, modelled as an
insertion-ordered list without duplicates. -/
def setInsert (s : List String) (x : String) : List String :=
  if s.contains x then s else s ++ [x]

/-- The loop body of GreedyJoinPlan::findBestNextJoin: a join with
exactly one side already joined is a candidate, and a strictly smaller
cost replaces the current best index. -/
def findBestNextJoinStep (joined : List String) (m : SizeMap)
    (best : Nat × Option ℚ) (ij : Nat × JoinC) : Nat × Option ℚ :=
  let j := ij.2
  let canJoinLeft := joined.contains j.lhsTable
  let canJoinRight := joined.contains j.rhsTable
  if (canJoinLeft && !canJoinRight) || (!canJoinLeft && canJoinRight) then
    let cost := estimateJoinCost (amGetD m j.lhsTable 0) (amGetD m j.rhsTable 0)
    match best.2 with
    | none => (ij.1, some cost)
    | some b => if cost < b then (ij.1, some cost) else best
  else best

/-- GreedyJoinPlan::findBestNextJoin: first strict minimum of the join
cost over the joins with exactly one side already joined; the index
defaults to 0 and the cost to DBL_MAX (`none`) when no join is
eligible. -/
def findBestNextJoin (remaining : List JoinC) (joined : List String) (m : SizeMap) :
    Nat × Option ℚ :=
  remaining.enum.foldl (findBestNextJoinStep joined m) (0, none)

/-- The while loop of GreedyJoinPlan::generatePlan: pick
findBestNextJoin's index (remainingJoins[bestJoinIdx] is applied even
when nothing is eligible, since the index then defaults to 0), apply the
join step, mark both tables joined, erase the chosen join.  Also returns
the sequence of joins applied, in order.  Each iteration removes one
join, so fuel = remaining.length is exact. -/
def greedyLoop : Nat → List JoinC → List String → ℚ × SizeMap → (ℚ × SizeMap) × List JoinC
  | 0, _, _, st => (st, [])
  | _ + 1, [], _, st => (st, [])
  | fuel + 1, j0 :: rest, joined, st =>
    let pick := (findBestNextJoin (j0 :: rest) joined st.2).1
    let bj := (j0 :: rest).getD pick j0
    let st2 := joinStep st bj
    let r := greedyLoop fuel ((j0 :: rest).eraseIdx pick)
      (setInsert (setInsert joined bj.lhsTable) bj.rhsTable) st2
    (r.1, bj :: r.2)

/-- std::min_element over the size map with a strict second-component
comparison: the first element of minimal size (the C++ iterates the
unordered_map in unspecified hash order; the model iterates insertion
order).  On an empty map the C++ dereferences end() — undefined
behaviour, modelled by the empty string. -/
def minElementKey (m : SizeMap) : String :=
  match m with
  | [] => ""
  | p :: ps => (ps.foldl (fun best q => if q.2 < best.2 then q else best) p).1

/-- GreedyJoinPlan::generatePlan: filters in query order, then the greedy
join loop seeded with the smallest filtered table. -/
def greedyPlan (sch : Schema) (q : QueryComponents) :
    Except Err (ℚ × SizeMap × List Step) := do
  let m0 ← initSizes sch q.tables
  let st1 ← runFilters sch q.scalarFilters (0, m0)
  let joined0 := setInsert [] (minElementKey st1.2)
  let r := greedyLoop q.joins.length q.joins joined0 st1
  pure (r.1.1, r.1.2, q.scalarFilters.map Step.filter ++ r.2.map Step.join)

/-- SubPlan from DPJoinPlan (the joinSequence strings are only printed
and are not modelled). -/
structure SubPlan where
  tables : List String
  cost : ℚ
  deriving Repr, DecidableEq

/-- Insert into a ≤-sorted string list. -/
def insertStr (x : String) : List String → List String
  | [] => [x]
  | y :: ys => if x ≤ y then x :: y :: ys else y :: insertStr x ys

/-- Insertion sort by String ≤ (std::sort on std::string; the sorted
sequence is unique, so the sorting algorithm is irrelevant). -/
def sortStr : List String → List String
  | [] => []
  | x :: xs => insertStr x (sortStr xs)

/-- DPJoinPlan::createPlanKey: the table names sorted and joined with
commas. -/
def createPlanKey (tables : List String) : String :=
  String.intercalate "," (sortStr tables)

/-- DPJoinPlan::canJoinPlans. -/
def canJoinPlans (p1 p2 : SubPlan) (j : JoinC) : Bool :=
  (p1.tables.contains j.lhsTable && p2.tables.contains j.rhsTable) ||
  (p1.tables.contains j.rhsTable && p2.tables.contains j.lhsTable)

/-- The candidate plan DPJoinPlan builds for a pair of subplans and a
join condition.  The join is costed from the planner's tableSizes map,
which the DP planner NEVER updates after the filters — every join is
priced at the post-filter base-table sizes. -/
def dpCandidate (m : SizeMap) (j : JoinC) (p1 p2 : SubPlan) : SubPlan :=
  { tables := p1.tables ++ p2.tables
    cost := p1.cost + p2.cost +
      estimateJoinCost (amGetD m j.lhsTable 0) (amGetD m j.rhsTable 0) }

/-- One `size` iteration of DPJoinPlan's build-up loop: collect the
cheapest candidate per key into newPlans, then merge them into the table
with unordered_map::insert, which does NOT overwrite existing keys. -/
def dpRound (q : QueryComponents) (m : SizeMap) (dp : List (String × SubPlan))
    (size : Nat) : List (String × SubPlan) :=
  let newPlans := dp.foldl (fun np p1 =>
    dp.foldl (fun np p2 =>
      if p1.2.tables.length + p2.2.tables.length == size then
        q.joins.foldl (fun np j =>
          if canJoinPlans p1.2 p2.2 j then
            let newPlan := dpCandidate m j p1.2 p2.2
            let newKey := createPlanKey newPlan.tables
            match amFind? np newKey with
            | none => amSet np newKey newPlan
            | some old => if old.cost > newPlan.cost then amSet np newKey newPlan else np
          else np) np
      else np) np) []
  newPlans.foldl (fun acc kv =>
    if (amFind? acc kv.1).isSome then acc else acc ++ [kv]) dp

end QO

namespace QO

/-- The single-table initialisation of the DP table:
dpTable[name] = { tables = {name}, cost = 0 }. -/
def initDp (q : QueryComponents) : List (String × SubPlan) :=
  q.tables.foldl (fun dp name => amSet dp name ⟨[name], 0⟩) []

/-- The size loop of DPJoinPlan::generatePlan:
for (size = 2; size <= tables.size(); ++size). -/
def dpMain (q : QueryComponents) (m : SizeMap) : List (String × SubPlan) :=
  (List.range' 2 (q.tables.length - 1)).foldl (dpRound q m) (initDp q)

/-- DPJoinPlan::generatePlan: filters in query order, then the DP
build-up.  When the final key is present its cost OVERWRITES totalCost
(`totalCost = dpTable[finalKey].cost`), discarding the filter costs;
when absent the filter total stands.  No join is ever pushed to
componentExecutionOrder (source comment: "We are not getting the
executable join order for DP"), so the emitted execution order contains
the filters only. -/
def dpPlan (sch : Schema) (q : QueryComponents) :
    Except Err (ℚ × SizeMap × List Step) := do
  let m0 ← initSizes sch q.tables
  let st1 ← runFilters sch q.scalarFilters (0, m0)
  let dp := dpMain q st1.2
  let total := match amFind? dp (createPlanKey q.tables) with
    | some p => p.cost
    | none => st1.1
  pure (total, st1.2, q.scalarFilters.map Step.filter)

end QO

namespace QO

/-! ## Claim C3: the scalar-filter cost formula -/

/-- The filter step as the SPEC states it (spec sections 6.2/6.3): the
cost is scan_factor·n + n·σ where n is the CURRENT mapped size of the
filtered table at the point the step is applied, and the mapped size is
then updated to ⌊n·σ⌋.  This definition transcribes the spec's words and
is compared against `filterStep`, which is translated from the source. -/
def filterStepSpec (sch : Schema) (st : ℚ × SizeMap) (f : ScalarFilter) :
    Except Err (ℚ × SizeMap) := do
  let t ← getTable sch f.lhsTable
  let sel ← t.estimateSelectivity f.lhsColumn f.predicate f.rhsValue
  let n := amGetD st.2 f.lhsTable 0
  pure (st.1 + ((n : ℚ) * 1 + (n : ℚ) * sel),
    amSet st.2 f.lhsTable (Int.floor ((n : ℚ) * sel)).toNat)

/-- Claim C3 (amended): whenever the table lookup and the selectivity
estimate succeed, the source's filter step charges
scan_factor·n_cat + n_cat·σ where n_cat is the CATALOG size of the
table (schema->getTable(...)->data.size()), not the current mapped size;
only the mapped-size update uses the current mapped size n_map, setting
it to ⌊n_map·σ⌋.  The spec's step (`filterStepSpec`) instead charges
scan_factor·n_map + n_map·σ; the two agree exactly when the mapped and
catalog sizes coincide (e.g. on the first filter ever applied to a
table), and diverge afterwards — see the counterexample. -/
theorem c3_amended (sch : Schema) (st : ℚ × SizeMap) (f : ScalarFilter) (t : Table) (sel : ℚ)
    (hT : getTable sch f.lhsTable = .ok t)
    (hS : t.estimateSelectivity f.lhsColumn f.predicate f.rhsValue = .ok sel) :
    filterStep sch st f = .ok
      (st.1 + ((t.data.length : ℚ) * 1 + (t.data.length : ℚ) * sel),
       amSet st.2 f.lhsTable
         (Int.floor (((amGetD st.2 f.lhsTable 0 : Nat) : ℚ) * sel)).toNat) ∧
    filterStepSpec sch st f = .ok
      (st.1 + (((amGetD st.2 f.lhsTable 0 : Nat) : ℚ) * 1 +
        ((amGetD st.2 f.lhsTable 0 : Nat) : ℚ) * sel),
       amSet st.2 f.lhsTable
         (Int.floor (((amGetD st.2 f.lhsTable 0 : Nat) : ℚ) * sel)).toNat) := by
  constructor
  · rw [filterStep, estimateFilterCostAndSelectivity, hT, exceptBind_ok, hS, exceptBind_ok]
    rfl
  · rw [filterStepSpec, hT, exceptBind_ok, hS, exceptBind_ok]
    rfl

/-- The concrete table of the C3 counterexample: one string column and
four rows with values "a", "a", "z", "z"; the two distinct values land
in different buckets of the 200-bucket string histogram, so EQUALS-"a"
has selectivity 2/4. -/
def c3Table : Table :=
  let t0 := (Table.mk "t" [] []).addColumn "v" "t" .string
  ((((t0.addRowState [Field.str "a"]).1.addRowState [Field.str "a"]).1.addRowState
    [Field.str "z"]).1.addRowState [Field.str "z"]).1

/-- The catalog of the C3 counterexample. -/
def c3Schema : Schema := [("t", c3Table)]

/-- The filter of the C3 counterexample: t.v = "a". -/
def c3f : ScalarFilter := ⟨"t", "v", .equals, .str "a"⟩

/-- The query of the C3 counterexample: the same filter applied twice. -/
def c3Query : QueryComponents := ⟨["t"], [c3f, c3f], []⟩

end QO

namespace QO

/-- The numerator and denominator of the EQUALS selectivity of a string
column, as a decidably computable pair (used to evaluate concrete
histograms through the kernel). -/
def selCountsEqStr (t : Table) (cn : String) (s : String) : Option (Nat × Nat) :=
  match t.columns.find? (fun c => c.name == cn) with
  | none => none
  | some col =>
    match col.type, col.stringHistogram with
    | .string, some h =>
      some (h.hist.buckets.getD (h.hist.selBucket (stringToInt s)) 0, h.hist.totalValues)
    | _, _ => none

/-- `Table.estimateSelectivity` on a string EQUALS probe is the ratio
of the counts computed by `selCountsEqStr`. -/
theorem estimateSelectivity_counts (t : Table) (cn : String) (s : String) (a b : Nat)
    (hc : selCountsEqStr t cn s = some (a, b)) :
    t.estimateSelectivity cn .equals (.str s) = .ok ((a : ℚ) / (b : ℚ)) := by
  rw [selCountsEqStr] at hc
  rw [Table.estimateSelectivity]
  cases hfind : t.columns.find? (fun c => c.name == cn) with
  | none => rw [hfind] at hc; cases hc
  | some col =>
    rw [hfind] at hc
    dsimp only at hc ⊢
    cases hty : col.type with
    | integer => rw [hty] at hc; cases hc
    | string =>
      rw [hty] at hc
      dsimp only at hc ⊢
      cases hh : col.stringHistogram with
      | none => rw [hh] at hc; cases hc
      | some h =>
        rw [hh] at hc
        dsimp only at hc
        have ha : h.hist.buckets.getD (h.hist.selBucket (stringToInt s)) 0 = a := by
          cases hc; rfl
        have hb : h.hist.totalValues = b := by
          cases hc; rfl
        subst ha
        subst hb
        rfl

/-- The EQUALS-"a" selectivity of the counterexample table is 1/2. -/
theorem c3_sel : c3Table.estimateSelectivity c3f.lhsColumn c3f.predicate c3f.rhsValue =
    .ok ((1 : ℚ) / 2) := by
  have hc : selCountsEqStr c3Table "v" "a" = some (2, 4) := by
    set_option maxRecDepth 4000 in decide
  have h := estimateSelectivity_counts c3Table "v" "a" 2 4 hc
  rw [show c3f.lhsColumn = "v" from rfl, show c3f.predicate = Op.equals from rfl,
    show c3f.rhsValue = Field.str "a" from rfl, h]
  norm_num

/-- Witness for C3 at a concrete input: the catalog table has 4 rows but
the mapped size is 2, and the source's step charges the catalog-size
cost while updating the mapped size. -/
theorem c3_amended_witness :
    getTable c3Schema c3f.lhsTable = .ok c3Table ∧
    filterStep c3Schema (0, [("t", 2)]) c3f = .ok
      (0 + ((c3Table.data.length : ℚ) * 1 + (c3Table.data.length : ℚ) * ((1 : ℚ) / 2)),
       amSet [("t", 2)] c3f.lhsTable
         (Int.floor (((amGetD [("t", 2)] c3f.lhsTable 0 : Nat) : ℚ) * ((1 : ℚ) / 2))).toNat) :=
  ⟨rfl, (c3_amended c3Schema (0, [("t", 2)]) c3f c3Table ((1 : ℚ) / 2) rfl c3_sel).1⟩

/-- Claim C3 counterexample: on a 4-row table with an EQUALS filter of
selectivity 1/2 applied twice, the source planner charges 6 for each
filter (both priced at the catalog size 4) for a total of 12, while the
spec's formula prices the second filter at the current mapped size 2,
charging 3 for it and 9 in total. -/
theorem c3_counterexample :
    (filtersFirst c3Schema c3Query).map (fun r => r.1) = .ok 12 ∧
    ((do
      let m0 ← initSizes c3Schema c3Query.tables
      c3Query.scalarFilters.foldlM (filterStepSpec c3Schema) ((0 : ℚ), m0) :
      Except Err (ℚ × SizeMap)).map (fun r => r.1)) = .ok 9 := by
  have hcs : estimateFilterCostAndSelectivity c3Schema c3f = .ok (6, (1 : ℚ) / 2) := by
    rw [estimateFilterCostAndSelectivity,
      show getTable c3Schema c3f.lhsTable = .ok c3Table from rfl, exceptBind_ok,
      c3_sel, exceptBind_ok]
    rw [show c3Table.data.length = 4 from by decide]
    norm_num [pure, Except.pure]
  have h1 : filterStep c3Schema ((0 : ℚ), [("t", 4)]) c3f = .ok (6, [("t", 2)]) := by
    rw [filterStep, hcs, exceptBind_ok]
    norm_num [c3f, amGetD, amFind?, amSet, List.find?, pure, Except.pure, Int.toNat_ofNat] <;> decide
  have h2 : filterStep c3Schema ((6 : ℚ), [("t", 2)]) c3f = .ok (12, [("t", 1)]) := by
    rw [filterStep, hcs, exceptBind_ok]
    norm_num [c3f, amGetD, amFind?, amSet, List.find?, pure, Except.pure, Int.toNat_ofNat] <;> decide
  have s1 : filterStepSpec c3Schema ((0 : ℚ), [("t", 4)]) c3f = .ok (6, [("t", 2)]) := by
    rw [filterStepSpec, show getTable c3Schema c3f.lhsTable = .ok c3Table from rfl,
      exceptBind_ok, c3_sel, exceptBind_ok]
    norm_num [c3f, amGetD, amFind?, amSet, List.find?, pure, Except.pure, Int.toNat_ofNat] <;> decide
  have s2 : filterStepSpec c3Schema ((6 : ℚ), [("t", 2)]) c3f = .ok (9, [("t", 1)]) := by
    rw [filterStepSpec, show getTable c3Schema c3f.lhsTable = .ok c3Table from rfl,
      exceptBind_ok, c3_sel, exceptBind_ok]
    norm_num [c3f, amGetD, amFind?, amSet, List.find?, pure, Except.pure, Int.toNat_ofNat] <;> decide
  constructor
  · rw [filtersFirst, show initSizes c3Schema c3Query.tables = .ok [("t", 4)] from rfl,
      exceptBind_ok]
    rw [show runFilters c3Schema c3Query.scalarFilters ((0 : ℚ), [("t", 4)]) =
        .ok (12, [("t", 1)]) from by
      rw [runFilters, show c3Query.scalarFilters = [c3f, c3f] from rfl,
        List.foldlM_cons, h1, exceptBind_ok, List.foldlM_cons, h2, exceptBind_ok,
        List.foldlM_nil]
      rfl]
    rw [exceptBind_ok]
    rfl
  · rw [show initSizes c3Schema c3Query.tables = .ok [("t", 4)] from rfl, exceptBind_ok]
    rw [show c3Query.scalarFilters = [c3f, c3f] from rfl,
      List.foldlM_cons, s1, exceptBind_ok, List.foldlM_cons, s2, exceptBind_ok,
      List.foldlM_nil]
    rfl

end QO

namespace QO

/-! ## Claim C2: lemmas on the permutation search and the greedy loop -/

/-- Prepending `h` to a list is a permutation of extracting the element
at position `j` and writing `h` there instead. -/
theorem perm_cons_set {α : Type} (t : List α) (j : Nat) (h : α) (hj : j < t.length) :
    (h :: t).Perm (t.get ⟨j, hj⟩ :: t.set j h) := by
  induction t generalizing j with
  | nil => simp at hj
  | cons a t ih =>
    cases j with
    | zero => simpa using List.Perm.swap a h t
    | succ k =>
      have hk : k < t.length := by simpa using hj
      refine (List.Perm.swap a h t).trans ?_
      refine ((ih k hk).cons a).trans ?_
      simpa using List.Perm.swap (t.get ⟨k, hk⟩) a (t.set k h)

/-- A list is a permutation of its element at position `i` followed by
the list with that position erased. -/
theorem perm_cons_eraseIdx {α : Type} (l : List α) (i : Nat) (hi : i < l.length) :
    l.Perm (l.get ⟨i, hi⟩ :: l.eraseIdx i) := by
  induction l generalizing i with
  | nil => simp at hi
  | cons a t ih =>
    cases i with
    | zero => simp
    | succ k =>
      have hk : k < t.length := by simpa using hi
      refine ((ih k hk).cons a).trans ?_
      simpa using List.Perm.swap (t.get ⟨k, hk⟩) a (t.eraseIdx k)

/-- Completeness of the permutation recursion: every permutation of the
tail, prefixed by the fixed prefix, is generated (with enough fuel). -/
theorem permGo_complete {α : Type} (p : List α) :
    ∀ (suf : List α) (fuel : Nat) (pre : List α),
      suf.length ≤ fuel → p.Perm suf → (pre ++ p) ∈ permGo fuel pre suf := by
  induction p with
  | nil =>
    intro suf fuel pre hfuel hperm
    have hs : suf = [] := (List.perm_nil.mp hperm.symm)
    subst hs
    cases fuel <;> simp [permGo]
  | cons x p ih =>
    intro suf fuel pre hfuel hperm
    cases suf with
    | nil => exact absurd (hperm.symm.mem_iff.mpr (List.mem_cons_self x p)) (by simp)
    | cons b bs =>
      cases fuel with
      | zero => simp at hfuel
      | succ f =>
        obtain ⟨⟨i, hi⟩, hget⟩ := List.mem_iff_get.mp
          (hperm.subset (List.mem_cons_self x p))
        rw [permGo]
        rw [List.mem_flatMap]
        refine ⟨i, List.mem_range.mpr hi, ?_⟩
        have hgetD : (b :: bs).getD i b = x := by
          rw [List.getD_eq_getElem?_getD, List.getElem?_eq_getElem hi]
          simpa using hget
        rw [hgetD, show pre ++ x :: p = (pre ++ [x]) ++ p from by simp]
        apply ih
        · have : ((b :: bs).set i b).length = (b :: bs).length := List.length_set ..
          rw [List.length_drop, this]
          simpa using hfuel
        · cases i with
          | zero =>
            have : ((b :: bs).set 0 b).drop 1 = bs := rfl
            rw [this]
            have hx : b = x := by simpa using hget
            subst hx
            exact hperm.cons_inv
          | succ k =>
            have hk : k < bs.length := by simpa using hi
            have hdrop : ((b :: bs).set (k + 1) b).drop 1 = bs.set k b := rfl
            rw [hdrop]
            have hx : bs.get ⟨k, hk⟩ = x := by simpa using hget
            have hswap : (b :: bs).Perm (x :: bs.set k b) := by
              have := perm_cons_set bs k b hk
              rwa [hx] at this
            exact (hperm.trans hswap).cons_inv

end QO

namespace QO

/-- The best-permutation loop never worsens an existing best. -/
theorem tryAllBest_mono (m1 : SizeMap) :
    ∀ (perms : List (List JoinC)) (b0 : ℚ × SizeMap × List JoinC),
      ∃ b', tryAllBest m1 perms (some b0) = some b' ∧ b'.1 ≤ b0.1 := by
  intro perms
  induction perms with
  | nil => intro b0; exact ⟨b0, rfl, le_refl _⟩
  | cons p ps ih =>
    intro b0
    rw [tryAllBest]
    by_cases hlt : (List.foldl joinStep (0, m1) p).1 < b0.1
    · rw [if_pos hlt]
      obtain ⟨b', hres, hle⟩ := ih _
      exact ⟨b', hres, le_trans hle (le_of_lt hlt)⟩
    · rw [if_neg hlt]
      exact ih b0

/-- The best-permutation loop returns a permutation total that is at
most the total of any member permutation. -/
theorem tryAllBest_mem_le (m1 : SizeMap) :
    ∀ (perms : List (List JoinC)) (p : List JoinC)
      (best : Option (ℚ × SizeMap × List JoinC)), p ∈ perms →
      ∃ bc bs ord, tryAllBest m1 perms best = some (bc, bs, ord) ∧
        bc ≤ (List.foldl joinStep (0, m1) p).1 := by
  intro perms
  induction perms with
  | nil => intro p best hp; simp at hp
  | cons p0 ps ih =>
    intro p best hp
    rcases List.mem_cons.mp hp with hp0 | hps
    · subst hp0
      cases best with
      | none =>
        rw [tryAllBest]
        obtain ⟨b', hres, hle⟩ := tryAllBest_mono m1 ps
          ((List.foldl joinStep (0, m1) p).1, (List.foldl joinStep (0, m1) p).2, p)
        exact ⟨b'.1, b'.2.1, b'.2.2, hres, hle⟩
      | some b =>
        rw [tryAllBest]
        by_cases hlt : (List.foldl joinStep (0, m1) p).1 < b.1
        · rw [if_pos hlt]
          obtain ⟨b', hres, hle⟩ := tryAllBest_mono m1 ps _
          exact ⟨b'.1, b'.2.1, b'.2.2, hres, hle⟩
        · rw [if_neg hlt]
          obtain ⟨b', hres, hle⟩ := tryAllBest_mono m1 ps b
          exact ⟨b'.1, b'.2.1, b'.2.2, hres, le_trans hle (le_of_not_lt hlt)⟩
    · cases best with
      | none =>
        rw [tryAllBest]
        exact ih p _ hps
      | some b =>
        rw [tryAllBest]
        by_cases hlt : (List.foldl joinStep (0, m1) p0).1 < b.1
        · rw [if_pos hlt]
          exact ih p _ hps
        · rw [if_neg hlt]
          exact ih p _ hps

/-- Folding the join step from an arbitrary starting cost adds that cost
to the zero-based total (the size map evolves identically). -/
theorem foldl_joinStep_shift (js : List JoinC) :
    ∀ (p : ℚ × SizeMap),
      List.foldl joinStep p js =
        (p.1 + (List.foldl joinStep (0, p.2) js).1, (List.foldl joinStep (0, p.2) js).2) := by
  induction js with
  | nil => intro p; simp
  | cons j js ih =>
    intro p
    rw [List.foldl_cons, List.foldl_cons]
    rw [ih (joinStep p j), ih (joinStep (0, p.2) j)]
    obtain ⟨E, hpe, h0e⟩ : ∃ E, (joinStep p j).1 = p.1 + E ∧
        (joinStep (0, p.2) j).1 = 0 + E := ⟨_, rfl, rfl⟩
    have h2 : (joinStep p j).2 = (joinStep (0, p.2) j).2 := rfl
    rw [h2, hpe, h0e]
    simp only [Prod.mk.injEq]
    refine ⟨by ring, by simp⟩

end QO

namespace QO

/-- The selection step keeps the best index below the bound. -/
theorem findBestNextJoinStep_lt (joined : List String) (m : SizeMap) (n : Nat)
    (best : Nat × Option ℚ) (ij : Nat × JoinC) (hb : best.1 < n) (hij : ij.1 < n) :
    (findBestNextJoinStep joined m best ij).1 < n := by
  rw [findBestNextJoinStep]
  by_cases hc : ((joined.contains ij.2.lhsTable && !joined.contains ij.2.rhsTable) ||
      (!joined.contains ij.2.lhsTable && joined.contains ij.2.rhsTable)) = true
  · rw [if_pos hc]
    cases hbs : best.2 with
    | none => exact hij
    | some b =>
      dsimp only
      by_cases hlt : estimateJoinCost (amGetD m ij.2.lhsTable 0) (amGetD m ij.2.rhsTable 0) < b
      · rw [if_pos hlt]
        exact hij
      · rw [if_neg hlt]
        exact hb
  · rw [if_neg hc]
    exact hb

/-- findBestNextJoin returns an index into the remaining joins (the C++
default 0 is in range because the list is nonempty). -/
theorem findBestNextJoin_lt (remaining : List JoinC) (joined : List String) (m : SizeMap)
    (hne : remaining ≠ []) :
    (findBestNextJoin remaining joined m).1 < remaining.length := by
  rw [findBestNextJoin]
  have hbase : (0 : Nat) < remaining.length := by
    cases remaining with
    | nil => exact absurd rfl hne
    | cons a l => simp
  have key : ∀ (l : List (Nat × JoinC)) (acc : Nat × Option ℚ),
      (∀ x ∈ l, x.1 < remaining.length) → acc.1 < remaining.length →
      (l.foldl (findBestNextJoinStep joined m) acc).1 < remaining.length := by
    intro l
    induction l with
    | nil => intro acc _ hacc; exact hacc
    | cons x l ih =>
      intro acc hmem hacc
      rw [List.foldl_cons]
      exact ih _ (fun y hy => hmem y (List.mem_cons_of_mem x hy))
        (findBestNextJoinStep_lt joined m _ acc x hacc (hmem x (List.mem_cons_self x l)))
  apply key
  · intro x hx
    rw [List.enum_eq_zip_range] at hx
    exact List.mem_range.mp (List.of_mem_zip hx).1
  · exact hbase

end QO

namespace QO

/-- The greedy while loop applies exactly a permutation of the remaining
joins, and its resulting state is the join-step fold over that
sequence. -/
theorem greedyLoop_spec :
    ∀ (fuel : Nat) (remaining : List JoinC) (joined : List String) (st : ℚ × SizeMap),
      remaining.length ≤ fuel →
      (greedyLoop fuel remaining joined st).2.Perm remaining ∧
      (greedyLoop fuel remaining joined st).1 =
        List.foldl joinStep st (greedyLoop fuel remaining joined st).2 := by
  intro fuel
  induction fuel with
  | zero =>
    intro remaining joined st hlen
    have hr : remaining = [] := List.length_eq_zero.mp (Nat.le_zero.mp hlen)
    subst hr
    exact ⟨List.Perm.refl _, rfl⟩
  | succ f ih =>
    intro remaining joined st hlen
    cases remaining with
    | nil => exact ⟨List.Perm.refl _, rfl⟩
    | cons j0 rest =>
      rw [greedyLoop]
      have hpick : (findBestNextJoin (j0 :: rest) joined st.2).1 < (j0 :: rest).length :=
        findBestNextJoin_lt (j0 :: rest) joined st.2 (by simp)
      have hlen2 : ((j0 :: rest).eraseIdx
          (findBestNextJoin (j0 :: rest) joined st.2).1).length ≤ f := by
        rw [List.length_eraseIdx_of_lt hpick]
        simpa using hlen
      obtain ⟨ihp, ihc⟩ := ih ((j0 :: rest).eraseIdx (findBestNextJoin (j0 :: rest) joined st.2).1)
        (setInsert (setInsert joined ((j0 :: rest).getD
          (findBestNextJoin (j0 :: rest) joined st.2).1 j0).lhsTable)
          ((j0 :: rest).getD (findBestNextJoin (j0 :: rest) joined st.2).1 j0).rhsTable)
        (joinStep st ((j0 :: rest).getD (findBestNextJoin (j0 :: rest) joined st.2).1 j0))
        hlen2
      have hgetD : (j0 :: rest).getD (findBestNextJoin (j0 :: rest) joined st.2).1 j0 =
          (j0 :: rest).get ⟨(findBestNextJoin (j0 :: rest) joined st.2).1, hpick⟩ := by
        rw [List.getD_eq_getElem?_getD, List.getElem?_eq_getElem hpick]
        rfl
      rw [hgetD] at ihp ihc ⊢
      constructor
      · dsimp only
        refine List.Perm.symm ?_
        refine (perm_cons_eraseIdx (j0 :: rest)
          (findBestNextJoin (j0 :: rest) joined st.2).1 hpick).trans ?_
        exact (ihp.symm.cons _)
      · dsimp only
        rw [List.foldl_cons]
        exact ihc

end QO

namespace QO

/-- Claim C2 (amended): whenever both planners succeed on the same
catalog and query, the exhaustive-permutation planner's total cost is at
most the greedy planner's total cost (both apply the same filter steps,
and the exhaustive search minimises over all join permutations, among
them the very permutation the greedy loop applies).  The claim's other
inequality — DP ≤ exhaustive — is false: see the counterexample, where
the DP planner prices every join at the never-updated post-filter base
sizes and overwrites the filter total. -/
theorem c2_amended (sch : Schema) (q : QueryComponents) (tc tg : ℚ)
    (mt mg : SizeMap) (et eg : List Step)
    (ht : tryAllPlan sch q = .ok (tc, mt, et))
    (hg : greedyPlan sch q = .ok (tg, mg, eg)) :
    tc ≤ tg := by
  cases hm0 : initSizes sch q.tables with
  | error e =>
    rw [tryAllPlan, hm0, exceptBind_error] at ht
    cases ht
  | ok m0 =>
    cases hrf : runFilters sch q.scalarFilters (0, m0) with
    | error e =>
      rw [tryAllPlan, hm0, exceptBind_ok, hrf, exceptBind_error] at ht
      cases ht
    | ok st1 =>
      rw [tryAllPlan, hm0, exceptBind_ok, hrf, exceptBind_ok] at ht
      rw [greedyPlan, hm0, exceptBind_ok, hrf, exceptBind_ok] at hg
      obtain ⟨hperm, hcost⟩ := greedyLoop_spec q.joins.length q.joins
        (setInsert [] (minElementKey st1.2)) st1 le_rfl
      have hmem : (greedyLoop q.joins.length q.joins
          (setInsert [] (minElementKey st1.2)) st1).2 ∈ permGo q.joins.length [] q.joins := by
        have h := permGo_complete
          (greedyLoop q.joins.length q.joins (setInsert [] (minElementKey st1.2)) st1).2
          q.joins q.joins.length [] le_rfl hperm
        simpa using h
      obtain ⟨bc, bs, ord, hres, hble⟩ := tryAllBest_mem_le st1.2
        (permGo q.joins.length [] q.joins)
        (greedyLoop q.joins.length q.joins (setInsert [] (minElementKey st1.2)) st1).2
        none hmem
      rw [generateJoinPermutations, hres] at ht
      dsimp only at ht hg
      have htc : tc = st1.1 + bc := by
        have h := Except.ok.inj ht
        simp only [Prod.mk.injEq] at h
        exact h.1.symm
      have htg : tg = (greedyLoop q.joins.length q.joins
          (setInsert [] (minElementKey st1.2)) st1).1.1 := by
        have h := Except.ok.inj hg
        simp only [Prod.mk.injEq] at h
        exact h.1.symm
      have hgg : (greedyLoop q.joins.length q.joins
          (setInsert [] (minElementKey st1.2)) st1).1.1 =
          st1.1 + (List.foldl joinStep (0, st1.2) (greedyLoop q.joins.length q.joins
            (setInsert [] (minElementKey st1.2)) st1).2).1 := by
        rw [hcost, foldl_joinStep_shift]
      rw [htc, htg, hgg]
      exact add_le_add_left hble st1.1
end QO

namespace QO

/-- Table A of the C2 counterexample: 2 rows. -/
def c2TA : Table := { name := "A", columns := [], data := List.replicate 2 [] }

/-- Table B of the C2 counterexample: 10 rows. -/
def c2TB : Table := { name := "B", columns := [], data := List.replicate 10 [] }

/-- Table C of the C2 counterexample: 10 rows. -/
def c2TC : Table := { name := "C", columns := [], data := List.replicate 10 [] }

/-- The catalog of the C2 counterexample. -/
def c2Schema : Schema := [("A", c2TA), ("B", c2TB), ("C", c2TC)]

/-- Join A.id = B.id. -/
def c2j1 : JoinC := ⟨"A", "id", .equals, "B", "id"⟩

/-- Join B.id = C.id. -/
def c2j2 : JoinC := ⟨"B", "id", .equals, "C", "id"⟩

/-- The query of the C2 counterexample: three tables, no filters, a join
chain A—B—C. -/
def c2Query : QueryComponents := ⟨["A", "B", "C"], [], [c2j1, c2j2]⟩

/-- String mismatches used throughout the C2 evaluations. -/
theorem c2_beq :
    (("A" : String) == "B") = false ∧ (("A" : String) == "C") = false ∧
    (("B" : String) == "A") = false ∧ (("B" : String) == "C") = false ∧
    (("C" : String) == "A") = false ∧ (("C" : String) == "B") = false := by
  decide

/-- The initial size map of the C2 counterexample. -/
theorem c2_m0 : initSizes c2Schema c2Query.tables = .ok [("A", 2), ("B", 10), ("C", 10)] := rfl

/-- Join order A⋈B then B⋈C, priced with updated sizes: 14 + 14 = 28. -/
theorem c2_fold1 : List.foldl joinStep ((0 : ℚ), [("A", 2), ("B", 10), ("C", 10)])
    [c2j1, c2j2] = (28, [("A", 2), ("B", 2), ("C", 2)]) := by
  norm_num +decide [List.foldl_cons, List.foldl_nil, joinStep, estimateJoinCost,
    estimateJoinCostAndSelectivity, amGetD, amFind?, amSet, List.find?, c2j1, c2j2,
    Nat.min_def, c2_beq.1, c2_beq.2.1, c2_beq.2.2.1, c2_beq.2.2.2.1, c2_beq.2.2.2.2.1,
    c2_beq.2.2.2.2.2]

/-- Join order B⋈C then A⋈B: 30 + 14 = 44. -/
theorem c2_fold2 : List.foldl joinStep ((0 : ℚ), [("A", 2), ("B", 10), ("C", 10)])
    [c2j2, c2j1] = (44, [("A", 2), ("B", 2), ("C", 10)]) := by
  norm_num +decide [List.foldl_cons, List.foldl_nil, joinStep, estimateJoinCost,
    estimateJoinCostAndSelectivity, amGetD, amFind?, amSet, List.find?, c2j1, c2j2,
    Nat.min_def, c2_beq.1, c2_beq.2.1, c2_beq.2.2.1, c2_beq.2.2.2.1, c2_beq.2.2.2.2.1,
    c2_beq.2.2.2.2.2]

/-- The exhaustive search on the counterexample keeps the 28-cost order. -/
theorem c2_tryAllBest : tryAllBest [("A", 2), ("B", 10), ("C", 10)]
    [[c2j1, c2j2], [c2j2, c2j1]] none =
    some (28, [("A", 2), ("B", 2), ("C", 2)], [c2j1, c2j2]) := by
  rw [tryAllBest]
  try dsimp only
  rw [c2_fold1, tryAllBest]
  try dsimp only
  rw [c2_fold2, tryAllBest]
  norm_num

/-- TryAllJoinOrder on the counterexample: total 28, both joins emitted. -/
theorem c2_tryAllPlan : tryAllPlan c2Schema c2Query =
    .ok (28, [("A", 2), ("B", 2), ("C", 2)], [Step.join c2j1, Step.join c2j2]) := by
  rw [tryAllPlan, c2_m0, exceptBind_ok]
  rw [show runFilters c2Schema c2Query.scalarFilters ((0 : ℚ), [("A", 2), ("B", 10), ("C", 10)]) =
    .ok (0, [("A", 2), ("B", 10), ("C", 10)]) from rfl, exceptBind_ok]
  rw [show generateJoinPermutations c2Query = [[c2j1, c2j2], [c2j2, c2j1]] from by decide]
  dsimp only
  rw [c2_tryAllBest]
  dsimp only
  norm_num [pure, Except.pure, c2Query]

end QO

namespace QO

/-- Greedy on the counterexample: seeded at the smallest table A, it
joins A⋈B (cost 14) then B⋈C at the updated sizes (cost 14), total
28, both joins emitted in chain order. -/
theorem c2_greedyPlan : ∃ x m, greedyPlan c2Schema c2Query =
    .ok (x, m, [Step.join c2j1, Step.join c2j2]) ∧ x = 28 := by
  refine ⟨_, _, rfl, ?_⟩
  norm_num +decide [greedyLoop, findBestNextJoin, findBestNextJoinStep, joinStep,
    minElementKey, setInsert, List.enum, List.enumFrom, List.contains, List.elem,
    c2Query, c2TA, c2TB, c2TC, List.length_replicate, List.foldl_cons, List.foldl_nil,
    List.eraseIdx, estimateJoinCost, estimateJoinCostAndSelectivity, amGetD, amFind?,
    amSet, List.find?, c2j1, c2j2, Nat.min_def, c2_beq.1, c2_beq.2.1, c2_beq.2.2.1,
    c2_beq.2.2.2.1, c2_beq.2.2.2.2.1, c2_beq.2.2.2.2.2]

end QO

namespace QO

/-- BEq on strings is decidable equality (lets simp evaluate literal
string comparisons). -/
theorem strBeqDecide (a b : String) : (a == b) = decide (a = b) := by
  by_cases h : a = b
  · subst h
    simp
  · simp [h, beq_eq_false_iff_ne]

/-- The singleton subplans of the C2 counterexample. -/
theorem c2_initDp : initDp c2Query =
    [("A", ⟨["A"], 0⟩), ("B", ⟨["B"], 0⟩), ("C", ⟨["C"], 0⟩)] := rfl

/-- DP round of size 2 on the counterexample: subplans A⋈B at cost 14
and B⋈C at cost 30, both priced at the static base sizes. -/
theorem c2_dp2 : dpRound c2Query [("A", 2), ("B", 10), ("C", 10)]
    [("A", ⟨["A"], 0⟩), ("B", ⟨["B"], 0⟩), ("C", ⟨["C"], 0⟩)] 2 =
    [("A", ⟨["A"], 0⟩), ("B", ⟨["B"], 0⟩), ("C", ⟨["C"], 0⟩),
     ("A,B", ⟨["A", "B"], 14⟩), ("B,C", ⟨["B", "C"], 30⟩)] := by
  norm_num +decide [dpRound, dpCandidate, canJoinPlans, createPlanKey, sortStr, insertStr,
    String.intercalate, strBeqDecide, amFind?, amSet, amGetD, List.find?, estimateJoinCost,
    estimateJoinCostAndSelectivity, List.foldl_cons, List.foldl_nil, List.contains,
    List.elem, c2Query, c2j1, c2j2]

end QO

namespace QO

/-- DP round of size 3 on the counterexample: every candidate for the
complete key "A,B,C" prices B⋈C at the static size 10·10 (the DP
planner never updates tableSizes), so the best complete plan costs
14 + 30 = 44. -/
theorem c2_dp3 : dpRound c2Query [("A", 2), ("B", 10), ("C", 10)]
    [("A", ⟨["A"], 0⟩), ("B", ⟨["B"], 0⟩), ("C", ⟨["C"], 0⟩),
     ("A,B", ⟨["A", "B"], 14⟩), ("B,C", ⟨["B", "C"], 30⟩)] 3 =
    [("A", ⟨["A"], 0⟩), ("B", ⟨["B"], 0⟩), ("C", ⟨["C"], 0⟩),
     ("A,B", ⟨["A", "B"], 14⟩), ("B,C", ⟨["B", "C"], 30⟩),
     ("A,A,B", ⟨["A", "A", "B"], 28⟩), ("A,B,C", ⟨["A", "B", "C"], 44⟩),
     ("A,B,B", ⟨["B", "A", "B"], 28⟩), ("B,B,C", ⟨["B", "B", "C"], 60⟩),
     ("B,C,C", ⟨["C", "B", "C"], 60⟩)] := by
  norm_num +decide [dpRound, dpCandidate, canJoinPlans, createPlanKey, sortStr, insertStr,
    String.intercalate, strBeqDecide, amFind?, amSet, amGetD, List.find?, estimateJoinCost,
    estimateJoinCostAndSelectivity, List.foldl_cons, List.foldl_nil, List.contains,
    List.elem, c2Query, c2j1, c2j2]

end QO

namespace QO

/-- DP total on the counterexample: the final-key cost 44 overwrites the
(zero) filter total. -/
theorem c2_dpPlan : (dpPlan c2Schema c2Query).map (fun r => r.1) = .ok 44 := by
  rw [dpPlan, c2_m0, exceptBind_ok]
  rw [show runFilters c2Schema c2Query.scalarFilters ((0 : ℚ), [("A", 2), ("B", 10), ("C", 10)]) =
    .ok (0, [("A", 2), ("B", 10), ("C", 10)]) from rfl, exceptBind_ok]
  rw [show ((0 : ℚ), [("A", 2), ("B", 10), ("C", 10)]).2 = [("A", 2), ("B", 10), ("C", 10)]
    from rfl]
  rw [dpMain, show List.range' 2 (c2Query.tables.length - 1) = [2, 3] from by decide,
    c2_initDp, List.foldl_cons, c2_dp2, List.foldl_cons, c2_dp3, List.foldl_nil]
  rw [show createPlanKey c2Query.tables = "A,B,C" from by
    norm_num +decide [createPlanKey, sortStr, insertStr, String.intercalate, c2Query]]
  norm_num +decide [amFind?, List.find?, strBeqDecide, pure, Except.pure, Except.map]

end QO

namespace QO

/-- Witness for C2 at the concrete A(2)/B(10)/C(10) chain query: the
exhaustive best total 28 is at most the greedy total (which is also
28). -/
theorem c2_amended_witness : ∃ tg mg, greedyPlan c2Schema c2Query =
    .ok (tg, mg, [Step.join c2j1, Step.join c2j2]) ∧ (28 : ℚ) ≤ tg := by
  obtain ⟨x, m, hge, hx⟩ := c2_greedyPlan
  exact ⟨x, m, hge, c2_amended c2Schema c2Query 28 x _ m _ _ c2_tryAllPlan hge⟩

/-- Claim C2 counterexample: on the A(2)—B(10)—C(10) join chain the DP
planner's total is 44 — it prices B⋈C at the never-updated base sizes
10·10 — while the exhaustive-permutation planner achieves 28, so
DP ≤ ExhaustivePermutation fails. -/
theorem c2_counterexample :
    (dpPlan c2Schema c2Query).map (fun r => r.1) = .ok 44 ∧
    (tryAllPlan c2Schema c2Query).map (fun r => r.1) = .ok 28 ∧
    ¬ ((44 : ℚ) ≤ 28) :=
  ⟨c2_dpPlan, by rw [c2_tryAllPlan]; rfl, by norm_num⟩

end QO

namespace QO

/-! ## Executor embedding (test_bench/executor.h) -/

/-- The column-copy loops of Executor::applyFilter and
Executor::joinTables: addColumn for each source column (fresh default
histograms, names and types preserved). -/
def copyColumns (dst : Table) (cols : List Column) : Table :=
  cols.foldl (fun ft c => ft.addColumn c.name c.tableName c.type) dst

/-- Executor::applyFilter.  The column index is looked up once per row
(inside the row loop, so an empty table never reports a missing column);
a missing column throws; `row[colIndex]` out of a short row is C++
undefined behaviour, modelled as an error; the six comparison operators
delegate to the Field operators, which throw on a cross-tag comparison;
histograms of the filtered table are recomputed at the end. -/
def applyFilter (t : Table) (baseTableName column : String) (op : Op) (value : Field) :
    Except Err Table := do
  let ft0 := copyColumns { name := t.name ++ "_filtered", columns := [], data := [] } t.columns
  let rows ← t.data.foldlM (fun acc row => do
    match t.getColumnIndex? column baseTableName with
    | none => .error .columnNotFound
    | some colIndex =>
      match row.get? colIndex with
      | none => .error .internal
      | some fv => do
        let m ← Field.cmp op fv value
        pure (if m then acc ++ [row] else acc)) []
  Table.recomputeHistograms { ft0 with data := rows }

/-- The body of the inner nested loop of Executor::joinTables: compare
`leftRow[leftColIndex] == rightRow[rightColIndex]` (the Field operator
throws on a cross-tag comparison; reading past the end of a row is C++
undefined behaviour, modelled as an error) and append the concatenated
row on a match. -/
def joinRowStep (leftColIndex rightColIndex : Nat) (leftRow : List Field)
    (acc2 : List (List Field)) (rightRow : List Field) : Except Err (List (List Field)) :=
  match leftRow.get? leftColIndex, rightRow.get? rightColIndex with
  | some lv, some rv => do
    let m ← Field.cmp .equals lv rv
    pure (if m then acc2 ++ [leftRow ++ rightRow] else acc2)
  | _, _ => .error .internal

/-- Executor::joinTables: columns of the left table then of the right
table (the equi-join column kept on both sides), one output row per
matching pair in left-major, right-minor nested-loop order, histograms
recomputed at the end.  Missing join columns throw. -/
def joinTables (leftTable rightTable : Table)
    (leftBase rightBase leftCol rightCol : String) : Except Err Table := do
  let jt0 := copyColumns (copyColumns
    { name := leftTable.name ++ "_" ++ rightTable.name ++ "_joined"
      columns := [], data := [] } leftTable.columns) rightTable.columns
  match leftTable.getColumnIndex? leftCol leftBase,
      rightTable.getColumnIndex? rightCol rightBase with
  | some leftColIndex, some rightColIndex => do
    let rows ← leftTable.data.foldlM (fun acc leftRow =>
      rightTable.data.foldlM (joinRowStep leftColIndex rightColIndex leftRow) acc) []
    Table.recomputeHistograms { jt0 with data := rows }
  | _, _ => .error .columnNotFound

/-- The executor's table map, keyed by base-table name in insertion
order. -/
abbrev TMap := List (String × Table)

/-- One component of the first pass of Executor::executeQuery: load the
referenced base tables that are not yet in the map. -/
def loadStep (sch : Schema) (m : TMap) (s : Step) : Except Err TMap :=
  match s with
  | .filter f =>
    if (amFind? m f.lhsTable).isSome then pure m
    else do
      let t ← getTable sch f.lhsTable
      pure (m ++ [(f.lhsTable, t)])
  | .join j => do
    let m1 ← if (amFind? m j.lhsTable).isSome then pure m
      else do
        let t ← getTable sch j.lhsTable
        pure (m ++ [(j.lhsTable, t)])
    if (amFind? m1 j.rhsTable).isSome then pure m1
    else do
      let t ← getTable sch j.rhsTable
      pure (m1 ++ [(j.rhsTable, t)])

/-- One component of the second pass of Executor::executeQuery.  A
filter replaces the filtered table's entry; a join replaces ONLY the two
named entries with the joined table (any other entry that pointed at one
of the operands goes stale).  The map read is `tableMap[...]`, which for
an absent key default-inserts a null shared_ptr that the C++ would then
dereference — undefined behaviour modelled as an error and unreachable
after the load pass. -/
def execStep (m : TMap) (s : Step) : Except Err TMap :=
  match s with
  | .filter f =>
    match amFind? m f.lhsTable with
    | none => .error .internal
    | some t => do
      let ft ← applyFilter t f.lhsTable f.lhsColumn f.predicate f.rhsValue
      pure (amSet m f.lhsTable ft)
  | .join j =>
    match amFind? m j.lhsTable, amFind? m j.rhsTable with
    | some lt, some rt => do
      let jt ← joinTables lt rt j.lhsTable j.rhsTable j.lhsColumn j.rhsColumn
      pure (amSet (amSet m j.lhsTable jt) j.rhsTable jt)
    | _, _ => .error .internal

/-- Executor::executeQuery: load pass, execution pass, then the final
result is the FIRST entry of the table map (tableMap.begin(); the C++
iterates an unordered_map in unspecified hash order, modelled as
insertion order) — or no result at all when the map is empty. -/
def executeQuery (sch : Schema) (order : List Step) : Except Err (Option Table) := do
  let m1 ← order.foldlM (loadStep sch) []
  let m2 ← order.foldlM execStep m1
  pure (m2.head?.map (fun p => p.2))

end QO

namespace QO

/-! ## Claim C7: lemmas for the nested-loop join -/

/-- BEq agrees with decidable equality on any lawful instance. -/
theorem beq_decide {α : Type} [BEq α] [LawfulBEq α] [DecidableEq α] (a b : α) :
    (a == b) = decide (a = b) := by
  by_cases h : a = b
  · subst h
    simp
  · simp [h, beq_eq_false_iff_ne]

/-- On two same-tag fields the EQUALS comparison succeeds and returns
the field equality. -/
theorem Field.cmp_equals (lv rv : Field) (h : lv.type = rv.type) :
    Field.cmp .equals lv rv = .ok (lv == rv) := by
  cases lv with
  | int a =>
    cases rv with
    | int b =>
      show Except.ok (a == b) = .ok (Field.int a == Field.int b)
      rw [beq_decide a b, beq_decide (Field.int a) (Field.int b)]
      exact congrArg Except.ok (decide_eq_decide.mpr (by simp))
    | str s => simp [Field.type] at h
  | str s =>
    cases rv with
    | int b => simp [Field.type] at h
    | str t =>
      show Except.ok (s == t) = .ok (Field.str s == Field.str t)
      rw [beq_decide s t, beq_decide (Field.str s) (Field.str t)]
      exact congrArg Except.ok (decide_eq_decide.mpr (by simp))

/-- mapM over Except succeeds elementwise, and any elementwise
consequence transfers to the output list. -/
theorem mapM_ok_map {α β γ : Type} (f : α → Except Err β) (g : β → γ) (h : α → γ) :
    ∀ (l : List α), (∀ a ∈ l, ∃ b, f a = .ok b ∧ g b = h a) →
      ∃ bs, l.mapM f = .ok bs ∧ bs.map g = l.map h := by
  intro l
  induction l with
  | nil => intro _; exact ⟨[], rfl, rfl⟩
  | cons a l ih =>
    intro hall
    obtain ⟨b, hb, hgb⟩ := hall a (List.mem_cons_self a l)
    obtain ⟨bs, hbs, hmap⟩ := ih (fun x hx => hall x (List.mem_cons_of_mem a hx))
    refine ⟨b :: bs, ?_, ?_⟩
    · rw [List.mapM_cons, hb, exceptBind_ok, hbs, exceptBind_ok]
      rfl
    · simp [hgb, hmap]

/-- The columns produced by the executor's column-copy loop. -/
theorem copyColumns_columns (cols : List Column) :
    ∀ (dst : Table), (copyColumns dst cols).columns =
      dst.columns ++ cols.map (fun c => Column.mkNew c.name c.tableName c.type) := by
  induction cols with
  | nil => intro dst; simp [copyColumns]
  | cons c cols ih =>
    intro dst
    rw [copyColumns, List.foldl_cons]
    have := ih (dst.addColumn c.name c.tableName c.type)
    rw [copyColumns] at this
    rw [this, Table.addColumn]
    simp

/-- The name and data fields of the column-copy loop are untouched. -/
theorem copyColumns_name_data (cols : List Column) :
    ∀ (dst : Table), (copyColumns dst cols).name = dst.name ∧
      (copyColumns dst cols).data = dst.data := by
  induction cols with
  | nil => intro dst; exact ⟨rfl, rfl⟩
  | cons c cols ih =>
    intro dst
    rw [copyColumns, List.foldl_cons]
    have := ih (dst.addColumn c.name c.tableName c.type)
    rw [copyColumns] at this
    exact this

end QO

namespace QO

/-- The inner (right) loop of the nested-loop join collects, in order,
the concatenations with the matching right rows. -/
theorem joinInner_ok (rdata : List (List Field)) (li ri : Nat) (lrow : List Field)
    (lv : Field) (hlv : lrow.get? li = some lv)
    (hr : ∀ rrow ∈ rdata, ∃ rv, rrow.get? ri = some rv ∧ rv.type = lv.type) :
    ∀ acc, rdata.foldlM (joinRowStep li ri lrow) acc =
      .ok (acc ++ (rdata.filter (fun rrow =>
        lrow.getD li (Field.int 0) == rrow.getD ri (Field.int 0))).map
        (fun rrow => lrow ++ rrow)) := by
  induction rdata with
  | nil =>
    intro acc
    simp only [List.foldlM_nil, List.filter_nil, List.map_nil, List.append_nil]
    rfl
  | cons rrow rest ih =>
    intro acc
    obtain ⟨rv, hrv, hty⟩ := hr rrow (List.mem_cons_self rrow rest)
    have hstep : joinRowStep li ri lrow acc rrow =
        .ok (if lv == rv then acc ++ [lrow ++ rrow] else acc) := by
      rw [joinRowStep, hlv, hrv]
      dsimp only
      rw [Field.cmp_equals lv rv hty.symm, exceptBind_ok]
      rfl
    rw [List.foldlM_cons, hstep, exceptBind_ok]
    have hgl : lrow.getD li (Field.int 0) = lv := by
      rw [List.getD_eq_getElem?_getD, ← List.get?_eq_getElem?, hlv]
      rfl
    have hgr : rrow.getD ri (Field.int 0) = rv := by
      rw [List.getD_eq_getElem?_getD, ← List.get?_eq_getElem?, hrv]
      rfl
    rw [show (rrow :: rest).filter (fun rrow =>
        lrow.getD li (Field.int 0) == rrow.getD ri (Field.int 0)) =
      (if (lv == rv) = true then rrow :: rest.filter (fun rrow =>
        lrow.getD li (Field.int 0) == rrow.getD ri (Field.int 0))
       else rest.filter (fun rrow =>
        lrow.getD li (Field.int 0) == rrow.getD ri (Field.int 0))) from by
      rw [List.filter_cons, hgl, hgr]]
    by_cases hm : (lv == rv) = true
    · rw [if_pos hm, if_pos hm]
      rw [ih (fun x hx => hr x (List.mem_cons_of_mem rrow hx)) (acc ++ [lrow ++ rrow])]
      simp
    · rw [if_neg hm, if_neg hm]
      exact ih (fun x hx => hr x (List.mem_cons_of_mem rrow hx)) acc

/-- The outer (left) loop of the nested-loop join produces the
left-major flatMap of the matching pairs. -/
theorem joinOuter_ok (ldata rdata : List (List Field)) (li ri : Nat) (τ : FieldType)
    (hl : ∀ lrow ∈ ldata, ∃ lv, lrow.get? li = some lv ∧ lv.type = τ)
    (hr : ∀ rrow ∈ rdata, ∃ rv, rrow.get? ri = some rv ∧ rv.type = τ) :
    ∀ acc, ldata.foldlM (fun acc lrow =>
        rdata.foldlM (joinRowStep li ri lrow) acc) acc =
      .ok (acc ++ ldata.flatMap (fun lrow => (rdata.filter (fun rrow =>
        lrow.getD li (Field.int 0) == rrow.getD ri (Field.int 0))).map
        (fun rrow => lrow ++ rrow))) := by
  induction ldata with
  | nil =>
    intro acc
    simp only [List.foldlM_nil, List.flatMap_nil, List.append_nil]
    rfl
  | cons lrow rest ih =>
    intro acc
    obtain ⟨lv, hlv, hlty⟩ := hl lrow (List.mem_cons_self lrow rest)
    rw [List.foldlM_cons]
    rw [joinInner_ok rdata li ri lrow lv hlv
      (fun rrow hrr => by
        obtain ⟨rv, h1, h2⟩ := hr rrow hrr
        exact ⟨rv, h1, by rw [h2, hlty]⟩) acc]
    rw [exceptBind_ok]
    rw [ih (fun x hx => hl x (List.mem_cons_of_mem lrow hx))]
    simp

end QO

namespace QO

/-- Histogram recomputation succeeds on a table whose integer columns
hold integer cells, and it changes only the histograms: name, data, and
every column's (name, baseTable, type) triple survive. -/
theorem recompute_ok (t : Table)
    (hwt : ∀ row ∈ t.data, ∀ i, i < t.columns.length →
      (t.columns.getD i (Column.mkNew "" "" .string)).type = .integer →
      (row.getD i (Field.int 0)).type = .integer) :
    ∃ t', t.recomputeHistograms = .ok t' ∧ t'.name = t.name ∧ t'.data = t.data ∧
      t'.columns.map (fun c => (c.name, c.tableName, c.type)) =
        t.columns.map (fun c => (c.name, c.tableName, c.type)) := by
  obtain ⟨cols, hcols, hmap⟩ := mapM_ok_map (recomputeColumn t.data)
    (fun c => (c.name, c.tableName, c.type))
    (fun ci => (ci.2.name, ci.2.tableName, ci.2.type)) t.columns.enum
    (by
      intro ci hci
      have hbound : ci.1 < t.columns.length := by
        have := List.mem_enum_iff_getElem?.mp hci
        exact List.getElem?_eq_some_iff.mp this |>.1
      have hgetD : t.columns.getD ci.1 (Column.mkNew "" "" .string) = ci.2 := by
        rw [List.getD_eq_getElem?_getD, List.mem_enum_iff_getElem?.mp hci]
        rfl
      cases hty : ci.2.type with
      | string =>
        refine ⟨ci.2, ?_, rfl⟩
        rw [recomputeColumn, hty]
        rfl
      | integer =>
        obtain ⟨vals, hvals, _⟩ := mapM_ok_map
          (fun row => (row.getD ci.1 (Field.int 0)).getIntValue)
          (fun _ => ()) (fun _ => ()) t.data
          (by
            intro row hrow
            have hint : (row.getD ci.1 (Field.int 0)).type = .integer :=
              hwt row hrow ci.1 hbound (by rw [hgetD, hty])
            cases hfv : row.getD ci.1 (Field.int 0) with
            | int v =>
              refine ⟨v, ?_, rfl⟩
              show (row.getD ci.1 (Field.int 0)).getIntValue = .ok v
              rw [hfv]
              rfl
            | str s => rw [hfv] at hint; cases hint)
        refine ⟨{ ci.2 with intHistogram := some ((IntHistogram.init 2000
            (vals.foldl Min.min cIntMax) (vals.foldl Max.max cIntMin)).addValues vals) },
          ?_, ?_⟩
        · rw [recomputeColumn, hty]
          rw [hvals, exceptBind_ok]
          rfl
        · rfl)
  refine ⟨{ t with columns := cols }, ?_, rfl, rfl, ?_⟩
  · rw [Table.recomputeHistograms, hcols, exceptBind_ok]
    rfl
  · show cols.map _ = _
    rw [hmap]
    rw [show t.columns.enum.map (fun ci => (ci.2.name, ci.2.tableName, ci.2.type)) =
      (t.columns.enum.map Prod.snd).map (fun c => (c.name, c.tableName, c.type)) from by
      rw [List.map_map]
      rfl]
    rw [List.enum_map_snd]

end QO

namespace QO

/-- getD through a map, in bounds. -/
theorem getD_map {α β : Type} (l : List α) (f : α → β) (i : Nat) (d : β) (d0 : α)
    (h : i < l.length) : (l.map f).getD i d = f (l.getD i d0) := by
  rw [List.getD_eq_getElem?_getD, List.getElem?_map, List.getElem?_eq_getElem h]
  rw [List.getD_eq_getElem?_getD, List.getElem?_eq_getElem h]
  rfl

/-- Claim C7: Executor::joinTables is the equi-join.  Under a successful
lookup of both join columns, same-tag join-column values in every row,
and rows that match their tables' column tags, the join succeeds; its
row list is exactly, in left-major right-minor order, the concatenation
lrow ++ rrow for each pair of rows whose join-column values are equal
(so the output size is the number of matching pairs); and its column
list is the left columns followed by the right columns — names,
base-table names and types preserved, the join column present on both
sides. -/
theorem c7_confirmed (l r : Table) (leftBase rightBase leftCol rightCol : String)
    (li ri : Nat) (τ : FieldType)
    (hli : l.getColumnIndex? leftCol leftBase = some li)
    (hri : r.getColumnIndex? rightCol rightBase = some ri)
    (hl : ∀ lrow ∈ l.data, ∃ lv, lrow.get? li = some lv ∧ lv.type = τ)
    (hr : ∀ rrow ∈ r.data, ∃ rv, rrow.get? ri = some rv ∧ rv.type = τ)
    (hwl : ∀ row ∈ l.data, row.length = l.columns.length ∧ ∀ i, i < l.columns.length →
      (row.getD i (Field.int 0)).type =
        (l.columns.getD i (Column.mkNew "" "" .string)).type)
    (hwr : ∀ row ∈ r.data, row.length = r.columns.length ∧ ∀ i, i < r.columns.length →
      (row.getD i (Field.int 0)).type =
        (r.columns.getD i (Column.mkNew "" "" .string)).type) :
    ∃ j, joinTables l r leftBase rightBase leftCol rightCol = .ok j ∧
      j.data = l.data.flatMap (fun lrow => (r.data.filter (fun rrow =>
        lrow.getD li (Field.int 0) == rrow.getD ri (Field.int 0))).map
        (fun rrow => lrow ++ rrow)) ∧
      j.columns.map (fun c => (c.name, c.tableName, c.type)) =
        (l.columns ++ r.columns).map (fun c => (c.name, c.tableName, c.type)) := by
  rw [joinTables, hli, hri]
  dsimp only
  rw [joinOuter_ok l.data r.data li ri τ hl hr [], exceptBind_ok]
  set ROWS := l.data.flatMap (fun lrow => (r.data.filter (fun rrow =>
    lrow.getD li (Field.int 0) == rrow.getD ri (Field.int 0))).map
    (fun rrow => lrow ++ rrow)) with hROWS
  set T := { copyColumns (copyColumns
      { name := l.name ++ "_" ++ r.name ++ "_joined", columns := [], data := [] }
      l.columns) r.columns with data := [] ++ ROWS } with hT
  have hTcols : T.columns =
      l.columns.map (fun c => Column.mkNew c.name c.tableName c.type) ++
      r.columns.map (fun c => Column.mkNew c.name c.tableName c.type) := by
    show (copyColumns (copyColumns _ l.columns) r.columns).columns = _
    rw [copyColumns_columns, copyColumns_columns]
    simp
  have hTdata : T.data = ROWS := by
    show [] ++ ROWS = ROWS
    simp
  obtain ⟨t', hrec, hname, hdata, hcolsmap⟩ := recompute_ok T (by
    intro row hrow i hi hcolint
    rw [hTdata] at hrow
    rw [hROWS] at hrow
    obtain ⟨lrow, hlrow, hrmem⟩ := List.mem_flatMap.mp hrow
    obtain ⟨rrow, hrfil, hreq⟩ := List.mem_map.mp hrmem
    have hrrow : rrow ∈ r.data := (List.mem_filter.mp hrfil).1
    subst hreq
    obtain ⟨hllen, hltys⟩ := hwl lrow hlrow
    obtain ⟨hrlen, hrtys⟩ := hwr rrow hrrow
    rw [hTcols] at hi hcolint
    by_cases hcase : i < l.columns.length
    · rw [List.getD_append _ _ _ _ (by simpa using hcase)] at hcolint
      rw [List.getD_append _ _ _ _ (by rw [hllen]; exact hcase)]
      rw [getD_map _ _ _ _ (Column.mkNew "" "" .string) hcase] at hcolint
      rw [hltys i hcase]
      exact hcolint
    · have hge : l.columns.length ≤ i := Nat.le_of_not_lt hcase
      rw [List.getD_append_right _ _ _ _ (by simpa using hge)] at hcolint
      rw [List.getD_append_right _ _ _ _ (by rw [hllen]; exact hge)]
      have hlt2 : i - l.columns.length < r.columns.length := by
        simp only [List.length_append, List.length_map] at hi
        omega
      rw [show (l.columns.map (fun c => Column.mkNew c.name c.tableName c.type)).length =
        l.columns.length from by simp] at hcolint
      rw [getD_map _ _ _ _ (Column.mkNew "" "" .string) hlt2] at hcolint
      rw [hllen]
      rw [hrtys (i - l.columns.length) hlt2]
      exact hcolint)
  refine ⟨t', hrec, ?_, ?_⟩
  · rw [hdata, hTdata]
  · rw [hcolsmap, hTcols]
    simp only [List.map_append, List.map_map]
    rfl

end QO

namespace QO

/-- Left witness table: one integer column, rows 1 and 2. -/
def c7L : Table :=
  ((((Table.mk "L" [] []).addColumn "id" "L" .integer).addRowState
    [Field.int 1]).1.addRowState [Field.int 2]).1

/-- Right witness table: one integer column, rows 1 and 1. -/
def c7R : Table :=
  ((((Table.mk "R" [] []).addColumn "id" "R" .integer).addRowState
    [Field.int 1]).1.addRowState [Field.int 1]).1

/-- Witness for C7 at two concrete one-column tables. -/
theorem c7_witness :
    ∃ j, joinTables c7L c7R "L" "R" "id" "id" = .ok j ∧
      j.data = c7L.data.flatMap (fun lrow => (c7R.data.filter (fun rrow =>
        lrow.getD 0 (Field.int 0) == rrow.getD 0 (Field.int 0))).map
        (fun rrow => lrow ++ rrow)) ∧
      j.columns.map (fun c => (c.name, c.tableName, c.type)) =
        (c7L.columns ++ c7R.columns).map (fun c => (c.name, c.tableName, c.type)) := by
  have hd : c7L.data = [[Field.int 1], [Field.int 2]] := by decide
  have hrd : c7R.data = [[Field.int 1], [Field.int 1]] := by decide
  refine c7_confirmed c7L c7R "L" "R" "id" "id" 0 0 .integer (by decide) (by decide)
    ?_ ?_ (by decide) (by decide)
  · intro lrow hlrow
    rw [hd] at hlrow
    rcases List.mem_cons.mp hlrow with h | h2
    · subst h
      exact ⟨Field.int 1, rfl, rfl⟩
    · rcases List.mem_cons.mp h2 with h | h3
      · subst h
        exact ⟨Field.int 2, rfl, rfl⟩
      · simp at h3
  · intro rrow hrrow
    rw [hrd] at hrrow
    rcases List.mem_cons.mp hrrow with h | h2
    · subst h
      exact ⟨Field.int 1, rfl, rfl⟩
    · rcases List.mem_cons.mp h2 with h | h3
      · subst h
        exact ⟨Field.int 1, rfl, rfl⟩
      · simp at h3

end QO

namespace QO

/-! ## Claim C1: planner execution orders through the executor -/

/-- On a single-join query the greedy selection index is 0 (the single
join's index, whether or not it is eligible — 0 is also the default). -/
theorem findBestNextJoin_single (j : JoinC) (joined : List String) (m : SizeMap) :
    (findBestNextJoin [j] joined m).1 = 0 := by
  rw [findBestNextJoin]
  rw [show ([j].enum) = [(0, j)] from rfl, List.foldl_cons, List.foldl_nil]
  rw [findBestNextJoinStep]
  try dsimp only
  by_cases hc : ((joined.contains j.lhsTable && !joined.contains j.rhsTable) ||
      (!joined.contains j.lhsTable && joined.contains j.rhsTable)) = true
  · rw [if_pos hc]
  · rw [if_neg hc]

/-- The greedy loop on a single join applies exactly that join. -/
theorem greedyLoop_single (j : JoinC) (joined : List String) (st : ℚ × SizeMap) :
    greedyLoop 1 [j] joined st = ((joinStep st j, [j]) :
      (ℚ × SizeMap) × List JoinC) := by
  rw [show (1 : Nat) = 0 + 1 from rfl, greedyLoop]
  try dsimp only
  rw [findBestNextJoin_single j joined st.2]
  rfl

/-- Claim C1 (amended): on a validated single-join query without scalar
filters, the four non-DP planners emit the SAME execution order — the
single join — so running any of them through the executor is literally
the same execution; the DP planner emits an EMPTY execution order (the
source never pushes a join component for DP), and executing the empty
order loads no tables and produces no result table at all.  The claim's
universal planner equivalence therefore fails for DP (see the
counterexample); among the other four it holds here because the emitted
orders coincide. -/
theorem c1_amended (sch : Schema) (q : QueryComponents) (j : JoinC) (tA tB : Table)
    (hfilt : q.scalarFilters = [])
    (hjoins : q.joins = [j])
    (htabs : q.tables = [j.lhsTable, j.rhsTable])
    (hne : j.lhsTable ≠ j.rhsTable)
    (hA : getTable sch j.lhsTable = .ok tA)
    (hB : getTable sch j.rhsTable = .ok tB) :
    (∃ c m, filtersFirst sch q = .ok (c, m, [Step.join j])) ∧
    (∃ c m, joinsFirst sch q = .ok (c, m, [Step.join j])) ∧
    (∃ c m, tryAllPlan sch q = .ok (c, m, [Step.join j])) ∧
    (∃ c m, greedyPlan sch q = .ok (c, m, [Step.join j])) ∧
    (∃ c m, dpPlan sch q = .ok (c, m, [])) ∧
    executeQuery sch [] = .ok none := by
  have hbeq : (j.lhsTable == j.rhsTable) = false := beq_eq_false_iff_ne.mpr hne
  have hm0 : initSizes sch q.tables =
      .ok [(j.lhsTable, tA.data.length), (j.rhsTable, tB.data.length)] := by
    rw [htabs, initSizes, List.foldlM_cons]
    try dsimp only
    rw [hA, exceptBind_ok, pure_bind, List.foldlM_cons]
    try dsimp only
    rw [hB, exceptBind_ok, pure_bind, List.foldlM_nil]
    rw [show amSet [] j.lhsTable tA.data.length = [(j.lhsTable, tA.data.length)] from rfl]
    rw [show amSet [(j.lhsTable, tA.data.length)] j.rhsTable tB.data.length =
      [(j.lhsTable, tA.data.length), (j.rhsTable, tB.data.length)] from by
      simp [amSet, List.find?, hbeq]]
    rfl
  have hrf : runFilters sch q.scalarFilters
      ((0 : ℚ), [(j.lhsTable, tA.data.length), (j.rhsTable, tB.data.length)]) =
      .ok (0, [(j.lhsTable, tA.data.length), (j.rhsTable, tB.data.length)]) := by
    rw [hfilt]
    rfl
  refine ⟨?_, ?_, ?_, ?_, ?_, rfl⟩
  · rw [filtersFirst, hm0, exceptBind_ok, hrf, exceptBind_ok, hfilt, hjoins]
    exact ⟨_, _, rfl⟩
  · rw [joinsFirst, hm0, exceptBind_ok]
    rw [hjoins, hfilt]
    dsimp only
    rw [show runFilters sch []
      (List.foldl joinStep ((0 : ℚ), [(j.lhsTable, tA.data.length),
        (j.rhsTable, tB.data.length)]) [j]) =
      .ok (List.foldl joinStep ((0 : ℚ), [(j.lhsTable, tA.data.length),
        (j.rhsTable, tB.data.length)]) [j]) from rfl, exceptBind_ok]
    exact ⟨_, _, rfl⟩
  · rw [tryAllPlan, hm0, exceptBind_ok, hrf, exceptBind_ok]
    rw [show generateJoinPermutations q = [[j]] from by
      rw [generateJoinPermutations, hjoins]
      rfl]
    rw [show tryAllBest ((0 : ℚ), [(j.lhsTable, tA.data.length),
        (j.rhsTable, tB.data.length)]).2 [[j]] none =
      some ((joinStep (0, [(j.lhsTable, tA.data.length), (j.rhsTable, tB.data.length)]) j).1,
        (joinStep (0, [(j.lhsTable, tA.data.length), (j.rhsTable, tB.data.length)]) j).2,
        [j]) from rfl]
    rw [hfilt]
    exact ⟨_, _, rfl⟩
  · rw [greedyPlan, hm0, exceptBind_ok, hrf, exceptBind_ok, hjoins]
    dsimp only
    rw [show ([j] : List JoinC).length = 1 from rfl]
    rw [greedyLoop_single]
    rw [hfilt]
    exact ⟨_, _, rfl⟩
  · rw [dpPlan, hm0, exceptBind_ok, hrf, exceptBind_ok, hfilt]
    exact ⟨_, _, rfl⟩

end QO

namespace QO

/-- Table A of the C1 counterexample: one integer column, one row. -/
def c1TA : Table :=
  (((Table.mk "A" [] []).addColumn "id" "A" .integer).addRowState [Field.int 1]).1

/-- Table B of the C1 counterexample: one integer column, one row. -/
def c1TB : Table :=
  (((Table.mk "B" [] []).addColumn "id" "B" .integer).addRowState [Field.int 1]).1

/-- The catalog of the C1 counterexample. -/
def c1Schema : Schema := [("A", c1TA), ("B", c1TB)]

/-- The single join A.id = B.id. -/
def c1j : JoinC := ⟨"A", "id", .equals, "B", "id"⟩

/-- The query of the C1 counterexample: two tables, one join, no
filters. -/
def c1Query : QueryComponents := ⟨["A", "B"], [], [c1j]⟩

/-- Witness for C1 at the concrete two-table single-join query. -/
theorem c1_amended_witness :
    (∃ c m, filtersFirst c1Schema c1Query = .ok (c, m, [Step.join c1j])) ∧
    (∃ c m, joinsFirst c1Schema c1Query = .ok (c, m, [Step.join c1j])) ∧
    (∃ c m, tryAllPlan c1Schema c1Query = .ok (c, m, [Step.join c1j])) ∧
    (∃ c m, greedyPlan c1Schema c1Query = .ok (c, m, [Step.join c1j])) ∧
    (∃ c m, dpPlan c1Schema c1Query = .ok (c, m, [])) ∧
    executeQuery c1Schema [] = .ok none :=
  c1_amended c1Schema c1Query c1j c1TA c1TB rfl rfl rfl (by decide) rfl rfl

/-- Claim C1 counterexample: on a two-table single-join query the DP
planner emits an empty execution order while FiltersFirst emits the
join; the executor turns the join order into a one-row result table and
the empty order into NO result at all, so the planners' executed
results are not logically equal. -/
theorem c1_counterexample :
    (dpPlan c1Schema c1Query).map (fun r => r.2.2) = .ok [] ∧
    (filtersFirst c1Schema c1Query).map (fun r => r.2.2) = .ok [Step.join c1j] ∧
    (executeQuery c1Schema [Step.join c1j]).map (Option.map (fun t => t.data)) =
      .ok (some [[Field.int 1, Field.int 1]]) ∧
    executeQuery c1Schema [] = .ok none := by
  refine ⟨rfl, rfl, ?_, rfl⟩
  decide

end QO
